import Mathlib

/-!
Verification development for the University of Memphis term-calendar importer
(source file uofm_calendar_import.py).

Shallow embedding conventions:
- Python strings are Lean String values; all scanning works on the underlying
  character list (String.data).  Regular-expression matching is embedded as
  deterministic recursive matchers; wherever the original regex could in
  principle backtrack, the character classes involved are disjoint, so the
  greedy deterministic matcher is equivalent (noted at each matcher).
- Python dates are embedded as a year/month/day record; where the code does
  calendar arithmetic (the week segmenter) the date is represented by its
  proleptic Gregorian ordinal (an Int, as produced by date.toordinal), for
  which weekday d = (d - 1) mod 7 with Monday = 0, exactly Python's weekday().
- Fallible Python code (functions that may raise) returns Except String;
  functions whose None result is meaningful return Option inside the Except.
- The external collaborators (HTTP fetch, the BeautifulSoup HTML-to-text
  reduction, and the dateutil natural-language date parser) are modelled at
  their interfaces: fetch is a function parameter, page inputs are the
  already-flattened text, and the dateutil parser is the deterministic
  month-name/day/year converter described by the specification.
-/

/-! ### Character classes (ASCII model of the regex classes used in the code) -/

/-- Model of the regex class [A-Za-z]. -/
def isAlphaAZ (c : Char) : Bool :=
  ('A' ≤ c && c ≤ 'Z') || ('a' ≤ c && c ≤ 'z')

/-- Model of the regex class \d, i.e. [0-9]. -/
def isDigit09 (c : Char) : Bool :=
  '0' ≤ c && c ≤ '9'

/-- Model of Python whitespace (\s and str.strip), restricted to ASCII. -/
def pyWhite (c : Char) : Bool :=
  c == ' ' || c == '\t' || c == '\n' || c == '\r' || c == '\x0B' || c == '\x0C'

/-- Model of the regex class \w (word character), restricted to ASCII. -/
def wordChar (c : Char) : Bool :=
  isAlphaAZ c || isDigit09 c || c == '_'

/-- ASCII lower-casing of one character, modelling str.lower per character. -/
def lowerChar (c : Char) : Char :=
  if 'A' ≤ c && c ≤ 'Z' then Char.ofNat (c.toNat + 32) else c

/-- Model of Python str.lower (ASCII). -/
def lowerStr (s : String) : String :=
  ⟨s.data.map lowerChar⟩

/-- Strip leading and trailing whitespace, modelling str.strip(). -/
def trimWS (l : List Char) : List Char :=
  ((l.dropWhile pyWhite).reverse.dropWhile pyWhite).reverse

/-- Replace each maximal run of whitespace by a single space: the effect of
re.sub(r"\s+", " ", s).  The Bool argument records whether the previous kept
character position was inside a whitespace run. -/
def collapseWS : Bool → List Char → List Char
  | _, [] => []
  | prevWS, c :: cs =>
    if pyWhite c then
      if prevWS then collapseWS true cs else ' ' :: collapseWS true cs
    else c :: collapseWS false cs

/-- Model of normalize_whitespace: re.sub(r"\s+", " ", s).strip(). -/
def normalize_whitespace (s : String) : String :=
  ⟨trimWS (collapseWS false s.data)⟩

/-- Model of str.strip() on a string. -/
def pyStripStr (s : String) : String :=
  ⟨trimWS s.data⟩

/-- Replace the en dash by a hyphen, modelling text.replace("–", "-"). -/
def dashify (c : Char) : Char :=
  if c == '–' then '-' else c

/-- Numeric value of a digit string (the digits are already validated). -/
def natOfDigits (ds : List Char) : Nat :=
  ds.foldl (fun a c => 10 * a + (c.toNat - '0'.toNat)) 0

/-- Case-insensitive prefix test on character lists (ASCII case folding). -/
def isPrefixCI : List Char → List Char → Bool
  | [], _ => true
  | _ :: _, [] => false
  | p :: ps, c :: cs => (lowerChar p == lowerChar c) && isPrefixCI ps cs

/-- Case-insensitive substring search: model of re.search on a literal pattern
with re.IGNORECASE. -/
def containsCIAux (pat : List Char) : List Char → Bool
  | [] => isPrefixCI pat []
  | c :: cs => isPrefixCI pat (c :: cs) || containsCIAux pat cs

/-- Whether pat occurs (case-insensitively) anywhere in s. -/
def containsCI (s pat : String) : Bool :=
  containsCIAux pat.data s.data

/-- Case-sensitive substring search, modelling Python's "pat in s". -/
def containsSubstrAux (pat : List Char) : List Char → Bool
  | [] => pat.isEmpty
  | c :: cs => pat.isPrefixOf (c :: cs) || containsSubstrAux pat cs

/-- Whether pat occurs anywhere in s (model of "pat in s"). -/
def containsSubstr (s pat : String) : Bool :=
  containsSubstrAux pat.data s.data

/-- Decimal rendering of an Int, modelling Python str(int). -/
def intStr (i : Int) : String :=
  if i < 0 then "-" ++ Nat.repr (-i).toNat else Nat.repr i.toNat

/-- Two-digit zero-padded rendering, modelling the format f-string {n:02d}
for 0 ≤ n ≤ 99. -/
def twoDigits (n : Nat) : String :=
  if n < 10 then "0" ++ Nat.repr n else Nat.repr n

/-! ### Dates

A Python datetime.date is embedded as a year/month/day record; comparison of
valid dates is lexicographic on (year, month, day), which agrees with Python's
date ordering. -/

structure Date where
  year : Nat
  month : Nat
  day : Nat
deriving DecidableEq, Repr

/-- Date comparison (Python date ≤), lexicographic on (year, month, day). -/
def Date.le (a b : Date) : Bool :=
  decide (a.year < b.year) ||
    (decide (a.year = b.year) &&
      (decide (a.month < b.month) ||
        (decide (a.month = b.month) && decide (a.day ≤ b.day))))

/-- Date comparison (Python date <), derived from the total order Date.le. -/
def Date.lt (a b : Date) : Bool :=
  !Date.le b a

/-- Python max of two dates. -/
def maxDate (a b : Date) : Date :=
  if Date.le a b then b else a

/-- Python min of two dates. -/
def minDate (a b : Date) : Date :=
  if Date.le a b then a else b

/-- Gregorian leap-year rule (as used by Python's calendar arithmetic). -/
def isLeap (y : Nat) : Bool :=
  (y % 4 == 0 && y % 100 != 0) || y % 400 == 0

/-- Days in a month of a given year; 0 for an invalid month number. -/
def daysInMonth (y m : Nat) : Nat :=
  if m = 1 then 31 else
  if m = 2 then (if isLeap y then 29 else 28) else
  if m = 3 then 31 else
  if m = 4 then 30 else
  if m = 5 then 31 else
  if m = 6 then 30 else
  if m = 7 then 31 else
  if m = 8 then 31 else
  if m = 9 then 30 else
  if m = 10 then 31 else
  if m = 11 then 30 else
  if m = 12 then 31 else 0

/-- Month number of an English month name, case-insensitively.  This is the
month-name table of the external dateutil parser, modelled for the full
English month names that appear on the source pages. -/
def monthIndex (mon : List Char) : Option Nat :=
  let s := mon.map lowerChar
  if s = "january".data then some 1 else
  if s = "february".data then some 2 else
  if s = "march".data then some 3 else
  if s = "april".data then some 4 else
  if s = "may".data then some 5 else
  if s = "june".data then some 6 else
  if s = "july".data then some 7 else
  if s = "august".data then some 8 else
  if s = "september".data then some 9 else
  if s = "october".data then some 10 else
  if s = "november".data then some 11 else
  if s = "december".data then some 12 else none

/-- Modelled from the spec: the external natural-language date parser
(dateutil) applied to a month-name/day/year triple, as in
dateparser.parse of the string "{mon} {d}, {y}".  It recognizes the month
name case-insensitively and raises (error) when the month name is unknown or
the day or year is out of range, exactly the validation the specification
assigns to parseDate. -/
def dateutilParseMDY (mon : List Char) (d y : Nat) : Except String Date :=
  match monthIndex mon with
  | none => Except.error "Unknown string format"
  | some m =>
    if 1 ≤ y ∧ 1 ≤ d ∧ d ≤ daysInMonth y m then Except.ok ⟨y, m, d⟩
    else Except.error "day is out of range for month"

/-! ### Ordinal representation of dates (for calendar arithmetic)

toOrdinal is Python's date.toordinal: day 1 is January 1 of year 1, which is
a Monday, so weekday d = (d - 1) mod 7 with Monday = 0. -/

/-- Days in the months of year y strictly before month m. -/
def daysBeforeMonth (y m : Nat) : Nat :=
  ((List.range (m - 1)).map (fun i => daysInMonth y (i + 1))).foldl (· + ·) 0

/-- Proleptic Gregorian ordinal of a date (Python date.toordinal). -/
def toOrdinal (d : Date) : Int :=
  let p := d.year - 1
  ((365 * p + p / 4 + p / 400 + daysBeforeMonth d.year d.month + d.day : Nat)
      - p / 100 : Nat)

/-- The calendar day after a date. -/
def nextDay (x : Date) : Date :=
  if x.day < daysInMonth x.year x.month then ⟨x.year, x.month, x.day + 1⟩
  else if x.month < 12 then ⟨x.year, x.month + 1, 1⟩
  else ⟨x.year + 1, 1, 1⟩

/-- Adding n days to a date (date + timedelta(days=n)). -/
def addDays (d : Date) : Nat → Date
  | 0 => d
  | n + 1 => addDays (nextDay d) n

/-! ### DateRange: the Range Primitive (class DateRange of the source) -/

/-- Inclusive date interval.  The source field named end is called stop here
because end is a Lean keyword. -/
structure DateRange where
  start : Date
  stop : Date
deriving DecidableEq, Repr

/-- Membership test: self.start <= d <= self.end. -/
def DateRange.contains (r : DateRange) (d : Date) : Bool :=
  Date.le r.start d && Date.le d r.stop

/-- Intersection test: not (self.end < other.start or other.end < self.start). -/
def DateRange.intersects (r o : DateRange) : Bool :=
  !(Date.lt r.stop o.start || Date.lt o.stop r.start)

/-- Clamping: DateRange(start=max(self.start, lo), end=min(self.end, hi)). -/
def DateRange.clamp (r : DateRange) (lo hi : Date) : DateRange :=
  ⟨maxDate r.start lo, minDate r.stop hi⟩

/-! ### Date-expression matchers

Each regex of the source is embedded as a deterministic matcher on character
lists.  The regexes combine greedy pieces whose character classes are
disjoint ([A-Za-z], \s, \d and the literal separators), so a backtracking
engine and the greedy deterministic matcher accept exactly the same strings:
shortening a greedy [A-Za-z]+/\s+/\d-run always leaves the continuation
facing a character of the run's own class, which the continuation rejects.
For \d{1,2} this means a run of 3 or more digits can never match, and for a
trailing \d{4} a run of k ≥ 4 digits matches its first 4 digits. -/

/-- Matcher for one occurrence of [A-Za-z]+\s+\d{1,2},\s*\d{4} starting at
the head of the list (the findall pattern of the fallback case).  Returns the
matched substring, the month-name characters, the day and year values, and
the remainder of the input after the match. -/
def matchMDYat (l : List Char) : Option ((List Char × List Char × Nat × Nat) × List Char) :=
  let mon := l.takeWhile isAlphaAZ
  let r1 := l.dropWhile isAlphaAZ
  if mon.isEmpty then none
  else
    let sp1 := r1.takeWhile pyWhite
    let r2 := r1.dropWhile pyWhite
    if sp1.isEmpty then none
    else
      let ds := r2.takeWhile isDigit09
      let r3 := r2.dropWhile isDigit09
      if ds.length = 0 ∨ 2 < ds.length then none
      else
        match r3 with
        | ',' :: r4 =>
          let sp2 := r4.takeWhile pyWhite
          let r5 := r4.dropWhile pyWhite
          let ys := r5.takeWhile isDigit09
          if ys.length < 4 then none
          else
            some ((mon ++ sp1 ++ ds ++ [','] ++ sp2 ++ ys.take 4,
                   mon, natOfDigits ds, natOfDigits (ys.take 4)), r5.drop 4)
        | _ => none

/-- Scanning loop of re.findall for the pattern above: at each position try a
match; on success continue after the match, otherwise advance one character.
The fuel is the input length, an upper bound on the number of steps since
every step consumes at least one character. -/
def findallGo : Nat → List Char → List (List Char × List Char × Nat × Nat)
  | 0, _ => []
  | _ + 1, [] => []
  | fuel + 1, c :: cs =>
    match matchMDYat (c :: cs) with
    | some (v, rest) => v :: findallGo fuel rest
    | none => findallGo fuel cs

/-- Model of re.findall(r"[A-Za-z]+\s+\d{1,2},\s*\d{4}", ·). -/
def findallMDY (l : List Char) : List (List Char × List Char × Nat × Nat) :=
  findallGo l.length l

/-- Model of re.fullmatch(r"[A-Za-z]+\s+\d{1,2},\s*\d{4}", ·): a full match is
a head match whose remainder is empty (which also forces the year run to be
exactly four digits). -/
def matchMDY_full (l : List Char) : Option (List Char × Nat × Nat) :=
  match matchMDYat l with
  | some ((_, mon, d, y), []) => some (mon, d, y)
  | _ => none

/-- Model of
re.fullmatch(r"([A-Za-z]+)\s+(\d{1,2})\s*-\s*([A-Za-z]+)\s+(\d{1,2}),\s*(\d{4})", ·),
the two-month range of the deadline end-date extractor.  Returns
(month1, day1, month2, day2, year). -/
def matchTwoMonth (l : List Char) : Option (List Char × Nat × List Char × Nat × Nat) :=
  let mon1 := l.takeWhile isAlphaAZ
  let r1 := l.dropWhile isAlphaAZ
  if mon1.isEmpty then none
  else
    let sp1 := r1.takeWhile pyWhite
    let r2 := r1.dropWhile pyWhite
    if sp1.isEmpty then none
    else
      let d1s := r2.takeWhile isDigit09
      let r3 := r2.dropWhile isDigit09
      if d1s.length = 0 ∨ 2 < d1s.length then none
      else
        match r3.dropWhile pyWhite with
        | '-' :: r4 =>
          let r5 := r4.dropWhile pyWhite
          let mon2 := r5.takeWhile isAlphaAZ
          let r6 := r5.dropWhile isAlphaAZ
          if mon2.isEmpty then none
          else
            let sp2 := r6.takeWhile pyWhite
            let r7 := r6.dropWhile pyWhite
            if sp2.isEmpty then none
            else
              let d2s := r7.takeWhile isDigit09
              let r8 := r7.dropWhile isDigit09
              if d2s.length = 0 ∨ 2 < d2s.length then none
              else
                match r8 with
                | ',' :: r9 =>
                  let r10 := r9.dropWhile pyWhite
                  if r10.length = 4 ∧ (r10.takeWhile isDigit09).length = 4 then
                    some (mon1, natOfDigits d1s, mon2, natOfDigits d2s,
                          natOfDigits r10)
                  else none
                | _ => none
        | _ => none

/-- Model of re.match(r"^([A-Za-z]+)\s+(\d{1,2})\s*-\s*(\d{1,2}),\s*(\d{4})$", ·)
(equivalently a fullmatch): the single-month range pattern.  Also used for
case C of the deadline end-date extractor, whose fullmatch of the same
pattern accepts the same strings.  Returns (month, day1, day2, year). -/
def matchRange1 (l : List Char) : Option (List Char × Nat × Nat × Nat) :=
  let mon := l.takeWhile isAlphaAZ
  let r1 := l.dropWhile isAlphaAZ
  if mon.isEmpty then none
  else
    let sp1 := r1.takeWhile pyWhite
    let r2 := r1.dropWhile pyWhite
    if sp1.isEmpty then none
    else
      let d1s := r2.takeWhile isDigit09
      let r3 := r2.dropWhile isDigit09
      if d1s.length = 0 ∨ 2 < d1s.length then none
      else
        match r3.dropWhile pyWhite with
        | '-' :: r4 =>
          let r5 := r4.dropWhile pyWhite
          let d2s := r5.takeWhile isDigit09
          let r6 := r5.dropWhile isDigit09
          if d2s.length = 0 ∨ 2 < d2s.length then none
          else
            match r6 with
            | ',' :: r7 =>
              let r8 := r7.dropWhile pyWhite
              if r8.length = 4 ∧ (r8.takeWhile isDigit09).length = 4 then
                some (mon, natOfDigits d1s, natOfDigits d2s, natOfDigits r8)
              else none
            | _ => none
        | _ => none

/-- Model of re.match(r"^([A-Za-z]+)\s+(\d{1,2})\s*-\s*(\d{1,2}),\s*(\d{4}).*$", ·):
the single-month range with an arbitrary trailing suffix after the year.
The inputs this is applied to are whitespace-normalized, hence contain no
newline, so .*$ accepts any remainder. -/
def matchRange2 (l : List Char) : Option (List Char × Nat × Nat × Nat) :=
  let mon := l.takeWhile isAlphaAZ
  let r1 := l.dropWhile isAlphaAZ
  if mon.isEmpty then none
  else
    let sp1 := r1.takeWhile pyWhite
    let r2 := r1.dropWhile pyWhite
    if sp1.isEmpty then none
    else
      let d1s := r2.takeWhile isDigit09
      let r3 := r2.dropWhile isDigit09
      if d1s.length = 0 ∨ 2 < d1s.length then none
      else
        match r3.dropWhile pyWhite with
        | '-' :: r4 =>
          let r5 := r4.dropWhile pyWhite
          let d2s := r5.takeWhile isDigit09
          let r6 := r5.dropWhile isDigit09
          if d2s.length = 0 ∨ 2 < d2s.length then none
          else
            match r6 with
            | ',' :: r7 =>
              let r8 := r7.dropWhile pyWhite
              let ys := r8.takeWhile isDigit09
              if ys.length < 4 then none
              else
                some (mon, natOfDigits d1s, natOfDigits d2s,
                      natOfDigits (ys.take 4))
            | _ => none
        | _ => none

/-- The combined single-month range match tried by parse_range: pattern 1
(exact) first, then pattern 2 (trailing suffix allowed). -/
def rangeParts (l : List Char) : Option (List Char × Nat × Nat × Nat) :=
  match matchRange1 l with
  | some v => some v
  | none => matchRange2 l

/-- The normalized character list parse_range works on: en dash replaced by
hyphen, then whitespace normalized. -/
def normalizeRangeText (text : String) : List Char :=
  trimWS (collapseWS false (text.data.map dashify))

/-- Modelled from the spec: parse_month_day_year, i.e. the external dateutil
parser in fuzzy mode.  Per the specification it recovers a
month-name/day/year pattern from the text if one is present and fails with
UnparsableDate otherwise; we model it as recovering the first
"Month D, YYYY" occurrence and converting it. -/
def parse_month_day_year (t : String) : Except String Date :=
  match findallMDY t.data with
  | [] => Except.error "UnparsableDate"
  | (_, mon, d, y) :: _ => dateutilParseMDY mon d y

/-- Model of parse_range: en dash normalization and whitespace normalization,
then the single-month range patterns in order, then the single-date
fallback producing a zero-width range. -/
def parse_range (text : String) : Except String DateRange :=
  let tl := normalizeRangeText text
  match matchRange1 tl with
  | some (mon, d1, d2, y) =>
    match dateutilParseMDY mon d1 y with
    | Except.error e => Except.error e
    | Except.ok s =>
      match dateutilParseMDY mon d2 y with
      | Except.error e => Except.error e
      | Except.ok e => Except.ok ⟨s, e⟩
  | none =>
    match matchRange2 tl with
    | some (mon, d1, d2, y) =>
      match dateutilParseMDY mon d1 y with
      | Except.error e => Except.error e
      | Except.ok s =>
        match dateutilParseMDY mon d2 y with
        | Except.error e => Except.error e
        | Except.ok e => Except.ok ⟨s, e⟩
    | none =>
      match parse_month_day_year ⟨tl⟩ with
      | Except.error e => Except.error e
      | Except.ok d => Except.ok ⟨d, d⟩

example : parse_range "October 11-14, 2025" =
    Except.ok ⟨⟨2025, 10, 11⟩, ⟨2025, 10, 14⟩⟩ := by rfl

example : parse_range "October 14-11, 2025" =
    Except.ok ⟨⟨2025, 10, 14⟩, ⟨2025, 10, 11⟩⟩ := by rfl

example : parse_range "December 5-11, 2025 / Friday-Thursday" =
    Except.ok ⟨⟨2025, 12, 5⟩, ⟨2025, 12, 11⟩⟩ := by rfl

example : parse_range "March 9 - 15, 2026" =
    Except.ok ⟨⟨2026, 3, 9⟩, ⟨2026, 3, 15⟩⟩ := by rfl

example : parse_range "August 25, 2025" =
    Except.ok ⟨⟨2025, 8, 25⟩, ⟨2025, 8, 25⟩⟩ := by rfl

/-! ### Deadline section scanner (parse_deadlines_drop_withdraw)

The HTML-to-text reduction (BeautifulSoup get_text) is an external
collaborator; the model takes the already-flattened page text.  Python
str.splitlines is modelled as splitting on the newline character. -/

/-- Splitting on the newline character; the accumulator holds the reversed
current line. -/
def splitLinesAux : List Char → List Char → List String
  | acc, [] => [⟨acc.reverse⟩]
  | acc, c :: cs =>
    if c == '\n' then ⟨acc.reverse⟩ :: splitLinesAux [] cs
    else splitLinesAux (c :: acc) cs

/-- Model of str.splitlines for newline-separated text. -/
def splitLines (s : String) : List String :=
  splitLinesAux [] s.data

/-- Shared line preprocessing of both page parsers: split into lines,
normalize whitespace per line, drop empty lines. -/
def cleanLines (txt : String) : List String :=
  ((splitLines txt).map normalize_whitespace).filter (fun s => s ≠ "")

/-- A character removed by the bullet stripper, the class [\s\-\*•·]. -/
def bulletChar (c : Char) : Bool :=
  pyWhite c || c == '-' || c == '*' || c == '•' || c == '·'

/-- Model of strip_bullets: re.sub(r"^[\s\-\*•·]+", "", s).strip(). -/
def strip_bullets (s : String) : String :=
  ⟨trimWS (s.data.dropWhile bulletChar)⟩

/-- Whether a line matches re.match(r"^FULL\b", ·): it starts with FULL
followed by a non-word character or the end of the line. -/
def startsFullToken (l : String) : Bool :=
  match l.data with
  | 'F' :: 'U' :: 'L' :: 'L' :: rest =>
    match rest with
    | [] => true
    | c :: _ => !wordChar c
  | _ => false

/-- Python truthiness of an Optional[str]: None and the empty string are
falsy. -/
def pyTruthyS : Option String → Bool
  | none => false
  | some s => s != ""

/-- The scanning loop of parse_deadlines_drop_withdraw, with the two section
flags and the two captured lines as state.  The final branch is the break
once both captures are (truthily) present. -/
def scanLoop : List String → Bool → Bool → Option String → Option String →
    Option String × Option String
  | [], _, _, d, w => (d, w)
  | l :: rest, inD, inW, d, w =>
    if containsCI l "Drop Period" then scanLoop rest true false d w
    else if containsCI l "Withdrawal Period" then scanLoop rest false true d w
    else if inD && d.isNone && startsFullToken l then
      scanLoop rest inD inW (some l) w
    else if inW && w.isNone && startsFullToken l then
      scanLoop rest inD inW d (some l)
    else if pyTruthyS d && pyTruthyS w then (d, w)
    else scanLoop rest inD inW d w

/-- The preprocessed lines of the deadlines page: cleaned then
bullet-stripped. -/
def ddLines (txt : String) : List String :=
  (cleanLines txt).map strip_bullets

/-- The pair (full_drop_line, full_withdraw_line) captured by the scanner. -/
def captured_full_lines (txt : String) : Option String × Option String :=
  scanLoop (ddLines txt) false false none none

/-- Strip the leading FULL token: re.sub(r"^FULL\b", "", line). -/
def stripFullToken (l : List Char) : List Char :=
  if startsFullToken ⟨l⟩ then l.drop 4 else l

/-- A leading separator character, the class [\s\-–:]. -/
def sepChar (c : Char) : Bool :=
  pyWhite c || c == '-' || c == '–' || c == ':'

/-- The stripped and normalized remainder of a captured FULL line, as
computed at the top of extract_end_date_from_full_line. -/
def stripFull (line : String) : String :=
  let a := trimWS (stripFullToken line.data)
  let b := trimWS (a.dropWhile sepChar)
  ⟨trimWS (collapseWS false (b.map dashify))⟩

/-- Model of extract_end_date_from_full_line: the ordered cascade of
sub-grammars (bare date, two-month range, single-month range, last
date-like occurrence) over the stripped line, with None for a missing line
and for a line matching no alternative. -/
def extract_end_date_from_full_line (line : Option String) :
    Except String (Option Date) :=
  match line with
  | none => Except.ok none
  | some l =>
    if l = "" then Except.ok none
    else
      let rest := stripFull l
      let rl := rest.data
      if (matchMDY_full rl).isSome then (parse_month_day_year rest).map some
      else
        match matchTwoMonth rl with
        | some (_, _, mon2, d2, y) => (dateutilParseMDY mon2 d2 y).map some
        | none =>
          match matchRange1 rl with
          | some (mon, _, d2, y) => (dateutilParseMDY mon d2 y).map some
          | none =>
            match (findallMDY rl).getLast? with
            | some (sub, _, _, _) => (parse_month_day_year ⟨sub⟩).map some
            | none => Except.ok none

/-- Model of parse_deadlines_drop_withdraw: run the scanner, then extract an
end date from each captured line. -/
def parse_deadlines_drop_withdraw (txt : String) :
    Except String (Option Date × Option Date) := do
  let p := captured_full_lines txt
  let a ← extract_end_date_from_full_line p.1
  let b ← extract_end_date_from_full_line p.2
  Except.ok (a, b)

/-! Specification-side view of the scanner (used to state its correctness):
the explicit three-state machine of the design document. -/

/-- The scanner states named by the specification. -/
inductive DLSection where
  | neither
  | inDrop
  | inWithdraw
deriving DecidableEq

/-- A line that toggles the section state (consumed, never captured). -/
def isToggle (l : String) : Bool :=
  containsCI l "Drop Period" || containsCI l "Withdrawal Period"

/-- The state transition of the specification's machine on one line. -/
def stepSection (st : DLSection) (l : String) : DLSection :=
  if containsCI l "Drop Period" then .inDrop
  else if containsCI l "Withdrawal Period" then .inWithdraw
  else st

/-- Each line paired with the state in effect when the scanner examines it. -/
def annotate (st : DLSection) : List String → List (String × DLSection)
  | [] => []
  | l :: ls => (l, st) :: annotate (stepSection st l) ls

/-- Declarative capture: the first non-toggle line that starts with the FULL
token while the machine is in the target state, scanning from state st. -/
def firstFullFrom (st : DLSection) (ls : List String) (target : DLSection) :
    Option String :=
  ((annotate st ls).find?
    (fun p => !isToggle p.1 && startsFullToken p.1 && decide (p.2 = target))).map
    Prod.fst

/-- Declarative capture from the initial state. -/
def firstFullCapture (ls : List String) (target : DLSection) : Option String :=
  firstFullFrom .neither ls target

example : captured_full_lines
    "Drop Period\n* 1ST - January 5, 2026\n* FULL  -  January 20 - February 2, 2026\n* FULL - other\nWithdrawal Period\n* WIN - x\n* FULL - March 16-29, 2026" =
    (some "FULL - January 20 - February 2, 2026",
     some "FULL - March 16-29, 2026") := by rfl

example : extract_end_date_from_full_line
    (some "FULL  -  January 20 - February 2, 2026") =
    Except.ok (some ⟨2026, 2, 2⟩) := by rfl

example : extract_end_date_from_full_line (some "FULL - March 16-29, 2026") =
    Except.ok (some ⟨2026, 3, 29⟩) := by rfl

example : extract_end_date_from_full_line (some "FULL - August 25, 2025") =
    Except.ok (some ⟨2025, 8, 25⟩) := by rfl

example : extract_end_date_from_full_line
    (some "FULL something Jan x August 25, 2025 then September 3, 2025 end") =
    Except.ok (some ⟨2025, 9, 3⟩) := by rfl

example : extract_end_date_from_full_line (some "FULL - TBA") =
    Except.ok none := by rfl

/-! ### Term block segmentation (extract_term_block_text, extract_subsection) -/

/-- After a matched term keyword: \s+\d{4}\b, i.e. at least one whitespace
character, then exactly four digits followed by a non-word character or the
end.  A digit run longer than four cannot match \d{4}\b (the boundary fails
inside the run) and a shorter one cannot match \d{4}. -/
def keywordThenYear (rest : List Char) : Bool :=
  let sp := rest.takeWhile pyWhite
  let r2 := rest.dropWhile pyWhite
  if sp.isEmpty then false
  else
    let ds := r2.takeWhile isDigit09
    decide (ds.length = 4) &&
      (match r2.drop 4 with
       | [] => true
       | c :: _ => !wordChar c)

/-- Try one alternative keyword of \b(Summer|Fall|Spring)\s+\d{4}\b at the
current position. -/
def tryHeaderKw (kw l : List Char) : Bool :=
  if kw.isPrefixOf l then keywordThenYear (l.drop kw.length) else false

/-- Position scan for \b(Summer|Fall|Spring)\s+\d{4}\b; the Bool argument
records whether the previous character is a word character (for the leading
word boundary). -/
def headerScan (kws : List (List Char)) : Bool → List Char → Bool
  | _, [] => false
  | prevWord, c :: cs =>
    (if prevWord then false
     else kws.any (fun kw => tryHeaderKw kw (c :: cs))) ||
      headerScan kws (wordChar c) cs

/-- Model of re.search(r"\b(Summer|Fall|Spring)\s+\d{4}\b", l) as a test. -/
def termHeaderMatch (l : String) : Bool :=
  headerScan ["Summer".data, "Fall".data, "Spring".data] false l.data

/-- Model of re.search(r"\bSpring\s+\d{4}\b", l) as a test. -/
def springHeaderMatch (l : String) : Bool :=
  headerScan ["Spring".data] false l.data

/-- Joining lines back into a block: "\n".join(lines). -/
def joinLines : List String → String
  | [] => ""
  | [x] => x
  | x :: xs => x ++ "\n" ++ joinLines xs

/-- Model of extract_term_block_text.  The input is the flattened page text
(the BeautifulSoup HTML-to-text step is the external collaborator).  The
spring branch fails when the "Spring {year}" heading is absent; the fall
branch falls back through the next-spring heading, any spring heading, and
the whole page. -/
def extract_term_block_text (txt : String) (year : Int) (semester : String) :
    Except String String :=
  let lines := cleanLines txt
  let sem := lowerStr semester
  if sem = "spring" then
    let key := "Spring " ++ intStr year
    match lines.findIdx? (fun l => containsSubstr l key) with
    | none =>
      Except.error ("Could not find " ++ key ++ " section on academic-year page.")
    | some i =>
      let tail := lines.drop (i + 1)
      match tail.findIdx? (fun l => termHeaderMatch l && !containsSubstr l key) with
      | some k => Except.ok (joinLines ((lines.drop i).take (k + 1)))
      | none => Except.ok (joinLines (lines.drop i))
  else
    let keyNext := "Spring " ++ intStr (year + 1)
    let boundary :=
      match lines.findIdx? (fun l => containsSubstr l keyNext) with
      | some i => i
      | none =>
        match lines.findIdx? (fun l => springHeaderMatch l) with
        | some i => i
        | none => lines.length
    Except.ok (joinLines (lines.take boundary))

/-- The fixed set of recognized part-of-term subsection headers. -/
def subsection_headers : List String :=
  ["All Parts of Term", "Winter Intersession", "Full Part of Term",
   "1st Half Part of Term", "2nd Half Part of Term",
   "Pre Summer Part of Term", "Extended Summer Part of Term"]

/-- Model of extract_subsection: from the line equal to header up to the next
recognized subsection header; the whole block if header is absent. -/
def extract_subsection (block header : String) : String :=
  let lines := ((splitLines block).map pyStripStr).filter (fun s => s ≠ "")
  match lines.findIdx? (fun l => l = header) with
  | none => block
  | some s =>
    let e :=
      match (lines.drop (s + 1)).findIdx? (fun l => subsection_headers.contains l) with
      | some k => s + 1 + k
      | none => lines.length
    joinLines ((lines.drop s).take (e - s))

/-! ### Labeled-field extraction (find_bullet_date, find_bullet_range) -/

/-- Group matcher for ([A-Za-z]+\s+\d{1,2},\s+\d{4}) at the current position
(the date group of find_bullet_date; note the \s+ after the comma).  Returns
the matched group text. -/
def dateGroupAt (l : List Char) : Option (List Char) :=
  let mon := l.takeWhile isAlphaAZ
  let r1 := l.dropWhile isAlphaAZ
  if mon.isEmpty then none
  else
    let sp1 := r1.takeWhile pyWhite
    let r2 := r1.dropWhile pyWhite
    if sp1.isEmpty then none
    else
      let ds := r2.takeWhile isDigit09
      let r3 := r2.dropWhile isDigit09
      if ds.length = 0 ∨ 2 < ds.length then none
      else
        match r3 with
        | ',' :: r4 =>
          let sp2 := r4.takeWhile pyWhite
          let r5 := r4.dropWhile pyWhite
          if sp2.isEmpty then none
          else
            let ys := r5.takeWhile isDigit09
            if ys.length < 4 then none
            else some (mon ++ sp1 ++ ds ++ [','] ++ sp2 ++ ys.take 4)
        | _ => none

/-- Group matcher for ([A-Za-z]+\s+\d{1,2}\s*[-–]\s*\d{1,2},\s*\d{4}) at the
current position (the range group of find_bullet_range).  Returns the
matched group text. -/
def rangeGroupAt (l : List Char) : Option (List Char) :=
  let mon := l.takeWhile isAlphaAZ
  let r1 := l.dropWhile isAlphaAZ
  if mon.isEmpty then none
  else
    let sp1 := r1.takeWhile pyWhite
    let r2 := r1.dropWhile pyWhite
    if sp1.isEmpty then none
    else
      let d1s := r2.takeWhile isDigit09
      let r3 := r2.dropWhile isDigit09
      if d1s.length = 0 ∨ 2 < d1s.length then none
      else
        let sp2 := r3.takeWhile pyWhite
        match r3.dropWhile pyWhite with
        | c :: r4 =>
          if c == '-' || c == '–' then
            let sp3 := r4.takeWhile pyWhite
            let r5 := r4.dropWhile pyWhite
            let d2s := r5.takeWhile isDigit09
            let r6 := r5.dropWhile isDigit09
            if d2s.length = 0 ∨ 2 < d2s.length then none
            else
              match r6 with
              | ',' :: r7 =>
                let sp4 := r7.takeWhile pyWhite
                let r8 := r7.dropWhile pyWhite
                let ys := r8.takeWhile isDigit09
                if ys.length < 4 then none
                else
                  some (mon ++ sp1 ++ d1s ++ sp2 ++ [c] ++ sp3 ++ d2s ++
                        [','] ++ sp4 ++ ys.take 4)
              | _ => none
          else none
        | [] => none

/-- At the current position: the escaped label literally, then \s*:\s*, then
the group matcher g. -/
def labelGroupAt (g : List Char → Option (List Char)) (pat l : List Char) :
    Option (List Char) :=
  if pat.isPrefixOf l then
    let r1 := (l.drop pat.length).dropWhile pyWhite
    match r1 with
    | ':' :: r2 => g (r2.dropWhile pyWhite)
    | _ => none
  else none

/-- re.search scan: try the label pattern at every position, leftmost match
wins. -/
def searchLabelGroup (g : List Char → Option (List Char)) (pat : List Char) :
    List Char → Option (List Char)
  | [] => none
  | c :: cs =>
    match labelGroupAt g pat (c :: cs) with
    | some grp => some grp
    | none => searchLabelGroup g pat cs

/-- Model of find_bullet_date: search for "{label}\s*:\s*(Month D, YYYY)" and
parse the group; None when the pattern is absent. -/
def find_bullet_date (term_text label : String) : Except String (Option Date) :=
  match searchLabelGroup dateGroupAt label.data term_text.data with
  | none => Except.ok none
  | some g => (parse_month_day_year ⟨g⟩).map some

/-- Model of find_bullet_range: search for "{label}\s*:\s*(Month D-D, YYYY)"
and parse the group as a range; None when the pattern is absent. -/
def find_bullet_range (term_text label : String) :
    Except String (Option DateRange) :=
  match searchLabelGroup rangeGroupAt label.data term_text.data with
  | none => Except.ok none
  | some g => (parse_range ⟨g⟩).map some

/-- Model of find_any_labeled_ranges: the labels whose range pattern is
present, in label-list order. -/
def find_any_labeled_ranges (term_text : String) :
    List String → Except String (List (String × DateRange))
  | [] => Except.ok []
  | lab :: rest => do
    let r ← find_bullet_range term_text lab
    let tail ← find_any_labeled_ranges term_text rest
    match r with
    | some rng => Except.ok ((lab, rng) :: tail)
    | none => Except.ok tail

example : find_bullet_date "* First Day of Classes: August 25, 2025 / Monday"
    "First Day of Classes" = Except.ok (some ⟨2025, 8, 25⟩) := by rfl

example : find_bullet_range "* Exams: December 5-11, 2025 / Friday-Thursday"
    "Exams" = Except.ok (some ⟨⟨2025, 12, 5⟩, ⟨2025, 12, 11⟩⟩) := by rfl

example : find_bullet_date "nothing here" "Study Day" = Except.ok none := by rfl

example : extract_term_block_text
    "Fall stuff\nSpring 2026\n* First Day of Classes: January 20, 2026\nSummer 2026\nmore"
    2026 "spring" =
    Except.ok "Spring 2026\n* First Day of Classes: January 20, 2026" := by rfl

example : extract_term_block_text "no such\nheadings" 2026 "spring" =
    Except.error "Could not find Spring 2026 section on academic-year page." := by rfl

/-! ### Instructional week segmentation

The week segmenter does pure calendar arithmetic, so dates are represented
here by their proleptic Gregorian ordinals (Int).  Ordinal 1 is
0001-01-01, a Monday, so weekday d = (d - 1) mod 7 with Monday = 0 agrees
with Python's date.weekday(); adding a timedelta of n days is adding n. -/

/-- Python date.weekday() on an ordinal: Monday = 0 .. Sunday = 6. -/
def weekday (d : Int) : Int :=
  (d - 1).emod 7

/-- Model of monday_of_week: d - timedelta(days=d.weekday()). -/
def monday_of_week (d : Int) : Int :=
  d - weekday d

/-- Model of daterange_inclusive: the days from s to e inclusive (empty when
e < s). -/
def daterange_inclusive (s e : Int) : List Int :=
  (List.range (e + 1 - s).toNat).map (fun (i : Nat) => s + (i : Int))

/-- Blackout test: any(r.contains(day) for r in blackout_ranges), with the
ranges as ordinal pairs. -/
def is_blackout (bl : List (Int × Int)) (d : Int) : Bool :=
  bl.any (fun r => decide (r.1 ≤ d) && decide (d ≤ r.2))

/-- The instructional days collected for the week of Monday m: the candidate
window [m, m+4] clamped to [F, L], keeping weekdays that are not blacked
out. -/
def collectDays (F L : Int) (bl : List (Int × Int)) (m : Int) : List Int :=
  (daterange_inclusive (max m F) (min (m + 4) L)).filter
    (fun d => decide (weekday d < 5) && !is_blackout bl d)

/-- The Mondays visited by the loop: from monday_of_week(first) while
cur ≤ monday_of_week(last), stepping 7 days.  Both bounds are Mondays, so
the loop visits exactly these (b - a) / 7 + 1 values (none when b < a). -/
def mondays (F L : Int) : List Int :=
  (List.range ((monday_of_week L - monday_of_week F) / 7 + 1).toNat).map
    (fun (i : Nat) => monday_of_week F + 7 * (i : Int))

/-- The event title: "Week {n}" with " (short)" appended for a short week. -/
def weekTitle (n : Nat) (short : Bool) : String :=
  "Week " ++ Nat.repr n ++ (if short then " (short)" else "")

/-- The loop body of instructional_week_events over the remaining Mondays,
with the current week counter: a week with no instructional days is skipped
without advancing the counter, otherwise an event over the first and last
collected days is emitted and the counter advances. -/
def weekLoop (F L : Int) (bl : List (Int × Int)) :
    List Int → Nat → List (String × Int × Int)
  | [], _ => []
  | m :: ms, n =>
    let ds := collectDays F L bl m
    if ds.isEmpty then weekLoop F L bl ms n
    else (weekTitle n (decide (ds.length < 5)), ds.headD 0, ds.getLastD 0) ::
      weekLoop F L bl ms (n + 1)

/-- Model of instructional_week_events on ordinals. -/
def instructional_week_events (F L : Int) (bl : List (Int × Int)) :
    List (String × Int × Int) :=
  weekLoop F L bl (mondays F L) 1

/-! Specification-side view of the segmenter, used to state its
correctness. -/

/-- The per-Monday collected instructional-day lists that are nonempty, in
chronological order: exactly the weeks the specification says are emitted. -/
def weekSpecLists (F L : Int) (bl : List (Int × Int)) : List (List Int) :=
  ((mondays F L).map (collectDays F L bl)).filter (fun l => !l.isEmpty)

/-- Numbering the emitted weeks consecutively starting at n. -/
def numberWeeks : Nat → List (List Int) → List (String × Int × Int)
  | _, [] => []
  | n, ds :: rest =>
    (weekTitle n (decide (ds.length < 5)), ds.headD 0, ds.getLastD 0) ::
      numberWeeks (n + 1) rest

/-- Chronological separation of two day lists: every day of the first
precedes every day of the second. -/
def chainRel (l1 l2 : List Int) : Prop :=
  ∀ a ∈ l1, ∀ b ∈ l2, a < b

example : instructional_week_events 1 11 [] =
    [("Week 1", 1, 5), ("Week 2 (short)", 8, 11)] := by rfl

example : instructional_week_events 1 19 [(8, 12)] =
    [("Week 1", 1, 5), ("Week 2", 15, 19)] := by rfl

example : instructional_week_events 3 16 [(4, 4)] =
    [("Week 1 (short)", 3, 5), ("Week 2", 8, 12), ("Week 3 (short)", 15, 16)] := by
  rfl

/-! ### Orchestration (build_term_events)

The page fetcher is the external collaborator fetch; it returns the
flattened text of the page at a URL or fails.  The calendar-sink half of the
script (Google API access) is outside the core and not modelled. -/

def ACADEMIC_BASE : String :=
  "https://preview.memphis.edu/registrar/calendars/academic"

def DATES_BASE : String :=
  "https://preview.memphis.edu/registrar/calendars/dates"

/-- Model of academic_year_slug_for_term: ay{yy}{yy+1}.php where yy is the
two-digit fall year; ValueError for a semester other than fall/spring
(after lower-casing).  The source message text contains quotes around fall
and spring, omitted here. -/
def academic_year_slug_for_term (year : Int) (semester : String) :
    Except String String :=
  let sem := lowerStr semester
  if sem = "fall" ∨ sem = "spring" then
    let fall_year := if sem = "fall" then year else year - 1
    Except.ok ("ay" ++ twoDigits (fall_year.emod 100).toNat ++
               twoDigits ((fall_year + 1).emod 100).toNat ++ ".php")
  else Except.error "semester must be fall or spring"

/-- Model of candidate_dates_deadlines_urls. -/
def candidate_dates_deadlines_urls (year : Int) (semester : String) :
    List String :=
  let sem := lowerStr semester
  let yy := twoDigits (year.emod 100).toNat
  let code := if sem = "fall" then "f" else "s"
  [DATES_BASE ++ "/" ++ sem ++ yy ++ "-dates.php",
   DATES_BASE ++ "/" ++ yy ++ code ++ "-dates.php"]

/-- The deadline-page fetch loop: try the candidate URLs in order; the first
successful fetch wins, exceptions are swallowed. -/
def firstFetch (fetch : String → Except String String) :
    List String → Option (String × String)
  | [] => none
  | u :: rest =>
    match fetch u with
    | Except.ok t => some (u, t)
    | Except.error _ => firstFetch fetch rest

/-- The break labels treated as blackout ranges. -/
def break_like_labels : List String :=
  ["Spring Break", "Fall Break", "Thanksgiving Holidays"]

/-- The holiday label spelling variants listed by the source (the list is
defined there but not read; the holiday loop uses its own two labels). -/
def holiday_like_labels : List String :=
  ["Labor Day", "M. L. King, Jr. Holiday", "M. L. King, Jr. Holiday:",
   "M. L. King, Jr. Holiday (All University Offices CLOSED)"]

/-- The blackout ranges for week counting: break ranges clamped to the term,
then the single-day holiday ranges. -/
def blackout_ranges_of (fd ld : Date) (breaks_in : List (String × DateRange))
    (holidays_in : List (String × DateRange)) : List DateRange :=
  breaks_in.map (fun p => p.2.clamp fd ld) ++ holidays_in.map Prod.snd

/-- The week segmenter on dates: transport to ordinals, segment, transport
the emitted days back (each emitted day is first_day plus its ordinal
offset). -/
def instructional_week_events_dates (fd ld : Date) (bl : List DateRange) :
    List (String × Date × Date) :=
  let F := toOrdinal fd
  (instructional_week_events F (toOrdinal ld)
      (bl.map (fun r => (toOrdinal r.start, toOrdinal r.stop)))).map
    (fun e => (e.1, addDays fd (e.2.1 - F).toNat, addDays fd (e.2.2 - F).toNat))

/-- The term model assembled by build_term_events. -/
structure TermPayload where
  ay_url : String
  dd_url : String
  first_day : Date
  last_day : Date
  study_day : Option Date
  exams_rng : Option DateRange
  breaks_in_term : List (String × DateRange)
  holidays_in_term : List (String × DateRange)
  last_drop_no_grade : Option Date
  last_withdraw_w : Option Date
  week_events : List (String × Date × Date)
deriving DecidableEq, Repr

/-- The body of build_term_events after the semester check, in source
order: academic page, term block, subsection, key dates, labels, deadlines
page, blackout construction, week segmentation. -/
def buildCore (year : Int) (sem : String)
    (fetch : String → Except String String) : Except String TermPayload := do
  let ay_slug ← academic_year_slug_for_term year sem
  let ay_url := ACADEMIC_BASE ++ "/" ++ ay_slug
  let academic_text ← fetch ay_url
  let tb ← extract_term_block_text academic_text year sem
  let term_text := extract_subsection tb "Full Part of Term"
  let first_day ← find_bullet_date term_text "First Day of Classes"
  let last_day ← find_bullet_date term_text "Last Day of Classes"
  let study_day ← find_bullet_date term_text "Study Day"
  let exams_rng ← find_bullet_range term_text "Exams"
  match first_day, last_day with
  | some fd, some ld => do
    let _labeled ← find_any_labeled_ranges term_text
      (break_like_labels ++ ["Exams"])
    let h1 ← find_bullet_date term_text "Labor Day"
    let h2 ← find_bullet_date term_text "M. L. King, Jr. Holiday"
    let single_holidays :=
      (match h1 with | some d => [("Labor Day", d)] | none => []) ++
      (match h2 with | some d => [("M. L. King, Jr. Holiday", d)] | none => [])
    let breaks ← find_any_labeled_ranges term_text break_like_labels
    match firstFetch fetch (candidate_dates_deadlines_urls year sem) with
    | none =>
      Except.error "Could not fetch a Dates and Deadlines page for the requested term."
    | some (dd_url, dd_text) => do
      let pr ← parse_deadlines_drop_withdraw dd_text
      let term : DateRange := ⟨fd, ld⟩
      let holidays_in_term :=
        (single_holidays.filter (fun p => term.contains p.2)).map
          (fun p => (p.1, (⟨p.2, p.2⟩ : DateRange)))
      let breaks_in_term := breaks.filter (fun p => p.2.intersects term)
      let blackouts := blackout_ranges_of fd ld breaks_in_term holidays_in_term
      Except.ok
        { ay_url := ay_url, dd_url := dd_url, first_day := fd, last_day := ld,
          study_day := study_day, exams_rng := exams_rng,
          breaks_in_term := breaks_in_term,
          holidays_in_term := holidays_in_term,
          last_drop_no_grade := pr.1, last_withdraw_w := pr.2,
          week_events := instructional_week_events_dates fd ld blackouts }
  | _, _ =>
    Except.error "Could not determine First or Last Day of Classes from academic-year calendar."

/-- Model of build_term_events: the semester validation happens before any
use of the fetcher. -/
def build_term_events (year : Int) (semester : String)
    (fetch : String → Except String String) : Except String TermPayload :=
  let sem := lowerStr semester
  if sem = "fall" ∨ sem = "spring" then buildCore year sem fetch
  else Except.error "semester must be fall or spring"

example : academic_year_slug_for_term 2025 "Fall" = Except.ok "ay2526.php" := by rfl

example : academic_year_slug_for_term 2026 "Spring" = Except.ok "ay2526.php" := by rfl

example : academic_year_slug_for_term 2025 "summer" =
    Except.error "semester must be fall or spring" := by rfl

example : candidate_dates_deadlines_urls 2026 "spring" =
    ["https://preview.memphis.edu/registrar/calendars/dates/spring26-dates.php",
     "https://preview.memphis.edu/registrar/calendars/dates/26s-dates.php"] := by rfl

example :
    (build_term_events 2025 "fall" (fun u =>
      if u = "https://preview.memphis.edu/registrar/calendars/academic/ay2526.php" then
        Except.ok "Fall 2025\n* First Day of Classes: August 25, 2025 / Monday\n* Labor Day: September 1, 2025 / Monday\n* Fall Break: October 11-14, 2025\n* Last Day of Classes: December 4, 2025 / Thursday\n* Study Day: December 5, 2025\n* Exams: December 8-11, 2025\nSpring 2026\nother stuff"
      else if u = "https://preview.memphis.edu/registrar/calendars/dates/fall25-dates.php" then
        Except.ok "Drop Period\nFULL - August 25 - September 5, 2025\nWithdrawal Period\nFULL - September 8 - October 24, 2025"
      else Except.error "404")).isOk = true := by rfl

/-! ### Helper lemmas about the date order -/

/-- Arithmetic characterization of the lexicographic date order. -/
theorem Date.le_iff (a b : Date) : Date.le a b = true ↔
    (a.year < b.year ∨ (a.year = b.year ∧
      (a.month < b.month ∨ (a.month = b.month ∧ a.day ≤ b.day)))) := by
  simp [Date.le]

/-! ### Claim C4: the range invariant of the core operations -/

/-- Claim C4 (corrected), counterexample to the claim as stated: a range
disjoint from the clamping bounds, with ordered bounds, clamps to an
inverted range, so it is not the case that every clamp of every range with
lo ≤ hi satisfies start ≤ end. -/
theorem C4_counterexample :
    Date.le ⟨2026, 1, 1⟩ ⟨2026, 1, 2⟩ = true ∧
    Date.le ⟨2026, 2, 1⟩ ⟨2026, 2, 10⟩ = true ∧
    Date.le ((DateRange.mk ⟨2026, 1, 1⟩ ⟨2026, 1, 2⟩).clamp ⟨2026, 2, 1⟩
        ⟨2026, 2, 10⟩).start
      ((DateRange.mk ⟨2026, 1, 1⟩ ⟨2026, 1, 2⟩).clamp ⟨2026, 2, 1⟩
        ⟨2026, 2, 10⟩).stop = false := by
  exact ⟨rfl, rfl, rfl⟩

/-- Clamping a well-ordered range by ordered bounds it intersects yields a
well-ordered range. -/
theorem clamp_ordered (r : DateRange) (lo hi : Date)
    (hr : Date.le r.start r.stop = true) (hb : Date.le lo hi = true)
    (hint : r.intersects ⟨lo, hi⟩ = true) :
    Date.le (r.clamp lo hi).start (r.clamp lo hi).stop = true := by
  simp only [DateRange.intersects, Date.lt, Bool.not_or, Bool.not_not,
    Bool.and_eq_true] at hint
  obtain ⟨h2, h3⟩ := hint
  simp only [DateRange.clamp, maxDate, minDate]
  by_cases c1 : Date.le r.start lo = true
  · rw [if_pos c1]
    by_cases c2 : Date.le r.stop hi = true
    · rw [if_pos c2]
      rw [Date.le_iff] at hr hb h2 h3 c1 c2 ⊢
      omega
    · rw [if_neg c2]
      rw [Date.le_iff] at hr hb h2 h3 c1 ⊢
      omega
  · rw [if_neg c1]
    by_cases c2 : Date.le r.stop hi = true
    · rw [if_pos c2]
      rw [Date.le_iff] at hr hb h2 h3 c2 ⊢
      omega
    · rw [if_neg c2]
      rw [Date.le_iff] at hr hb h2 h3 ⊢
      omega

/-- Inversion of a successful dateutil conversion: the date is built from
the recognized month and the given day and year. -/
theorem dateutilParseMDY_ok (mon : List Char) (d y : Nat) (s : Date)
    (h : dateutilParseMDY mon d y = Except.ok s) :
    ∃ mm, monthIndex mon = some mm ∧ s = ⟨y, mm, d⟩ := by
  unfold dateutilParseMDY at h
  cases hmi : monthIndex mon with
  | none => simp only [hmi] at h; exact Except.noConfusion h
  | some mm =>
    simp only [hmi] at h
    by_cases hv : 1 ≤ y ∧ 1 ≤ d ∧ d ≤ daysInMonth y mm
    · rw [if_pos hv] at h
      injection h with h2
      exact ⟨mm, rfl, h2.symm⟩
    · rw [if_neg hv] at h
      exact Except.noConfusion h

/-- The ordering side condition for parse_range: if the single-month range
grammar matched, its two day numbers are ordered. -/
def dayPairOrdered (o : Option (List Char × Nat × Nat × Nat)) : Prop :=
  ∀ mon d1 d2 y, o = some (mon, d1, d2, y) → d1 ≤ d2

/-- A range successfully produced by parse_range is well-ordered provided
the matched day pair (if the single-month grammar matched) is ordered; the
single-date fallback is always well-ordered. -/
theorem parse_range_ordered (t : String) (r : DateRange)
    (hok : parse_range t = Except.ok r)
    (hord : dayPairOrdered (rangeParts (normalizeRangeText t))) :
    Date.le r.start r.stop = true := by
  simp only [parse_range] at hok
  cases hm1 : matchRange1 (normalizeRangeText t) with
  | some v =>
    obtain ⟨mon, d1, d2, y⟩ := v
    have hd12 : d1 ≤ d2 := hord mon d1 d2 y (by unfold rangeParts; rw [hm1])
    simp only [hm1] at hok
    cases hs : dateutilParseMDY mon d1 y with
    | error e => simp only [hs] at hok; exact Except.noConfusion hok
    | ok s =>
      simp only [hs] at hok
      cases he : dateutilParseMDY mon d2 y with
      | error e => simp only [he] at hok; exact Except.noConfusion hok
      | ok e =>
        simp only [he] at hok
        obtain ⟨mm, hmi, hs2⟩ := dateutilParseMDY_ok mon d1 y s hs
        obtain ⟨mm2, hmi2, he2⟩ := dateutilParseMDY_ok mon d2 y e he
        rw [hmi] at hmi2
        injection hmi2 with hmm
        injection hok with hok2
        subst hok2
        subst hs2
        subst he2
        subst hmm
        rw [Date.le_iff]
        dsimp only
        omega
  | none =>
    simp only [hm1] at hok
    cases hm2 : matchRange2 (normalizeRangeText t) with
    | some v =>
      obtain ⟨mon, d1, d2, y⟩ := v
      have hd12 : d1 ≤ d2 := hord mon d1 d2 y (by unfold rangeParts; rw [hm1, hm2])
      simp only [hm2] at hok
      cases hs : dateutilParseMDY mon d1 y with
      | error e => simp only [hs] at hok; exact Except.noConfusion hok
      | ok s =>
        simp only [hs] at hok
        cases he : dateutilParseMDY mon d2 y with
        | error e => simp only [he] at hok; exact Except.noConfusion hok
        | ok e =>
          simp only [he] at hok
          obtain ⟨mm, hmi, hs2⟩ := dateutilParseMDY_ok mon d1 y s hs
          obtain ⟨mm2, hmi2, he2⟩ := dateutilParseMDY_ok mon d2 y e he
          rw [hmi] at hmi2
          injection hmi2 with hmm
          injection hok with hok2
          subst hok2
          subst hs2
          subst he2
          subst hmm
          rw [Date.le_iff]
          dsimp only
          omega
    | none =>
      simp only [hm2] at hok
      cases hp : parse_month_day_year ⟨normalizeRangeText t⟩ with
      | error e => simp only [hp] at hok; exact Except.noConfusion hok
      | ok d =>
        simp only [hp] at hok
        injection hok with hok2
        subst hok2
        rw [Date.le_iff]
        dsimp only
        omega

/-- Claim C4 (corrected, amended): (i) clamping a well-ordered range by
ordered bounds it intersects yields a well-ordered range; (ii) a range
produced by parse_range is well-ordered provided the matched day pair (if
the single-month range grammar matched) is ordered; (iii) the
orchestrator's blackout ranges are well-ordered when the term bounds are
ordered, the break ranges are well-ordered and intersect the term, and the
holiday ranges are well-ordered. -/
theorem C4_range_invariant :
    (∀ (r : DateRange) (lo hi : Date), Date.le r.start r.stop = true →
      Date.le lo hi = true → r.intersects ⟨lo, hi⟩ = true →
      Date.le (r.clamp lo hi).start (r.clamp lo hi).stop = true) ∧
    (∀ (t : String) (r : DateRange), parse_range t = Except.ok r →
      dayPairOrdered (rangeParts (normalizeRangeText t)) →
      Date.le r.start r.stop = true) ∧
    (∀ (fd ld : Date) (breaks_in holidays_in : List (String × DateRange)),
      Date.le fd ld = true →
      (∀ p ∈ breaks_in, Date.le p.2.start p.2.stop = true ∧
        p.2.intersects ⟨fd, ld⟩ = true) →
      (∀ p ∈ holidays_in, Date.le p.2.start p.2.stop = true) →
      ∀ rr ∈ blackout_ranges_of fd ld breaks_in holidays_in,
        Date.le rr.start rr.stop = true) := by
  refine ⟨clamp_ordered, parse_range_ordered, ?_⟩
  intro fd ld breaks_in holidays_in hterm hbr hh rr hrr
  unfold blackout_ranges_of at hrr
  rw [List.mem_append] at hrr
  cases hrr with
  | inl h =>
    rw [List.mem_map] at h
    obtain ⟨p, hp, hpe⟩ := h
    obtain ⟨hple, hpint⟩ := hbr p hp
    rw [← hpe]
    exact clamp_ordered p.2 fd ld hple hterm hpint
  | inr h =>
    rw [List.mem_map] at h
    obtain ⟨p, hp, hpe⟩ := h
    rw [← hpe]
    exact hh p hp

/-- Claim C4: witness instances for the amended range invariant: a clamp of
an intersecting range, a parse through the single-date fallback, and the
blackout ranges of a small term. -/
theorem C4_witness :
    (Date.le ⟨2026, 1, 1⟩ ⟨2026, 1, 10⟩ = true ∧
     Date.le ⟨2026, 1, 5⟩ ⟨2026, 1, 20⟩ = true ∧
     (DateRange.mk ⟨2026, 1, 1⟩ ⟨2026, 1, 10⟩).intersects
        ⟨⟨2026, 1, 5⟩, ⟨2026, 1, 20⟩⟩ = true ∧
     Date.le ((DateRange.mk ⟨2026, 1, 1⟩ ⟨2026, 1, 10⟩).clamp ⟨2026, 1, 5⟩
          ⟨2026, 1, 20⟩).start
        ((DateRange.mk ⟨2026, 1, 1⟩ ⟨2026, 1, 10⟩).clamp ⟨2026, 1, 5⟩
          ⟨2026, 1, 20⟩).stop = true) ∧
    (parse_range "May 4, 2026" = Except.ok ⟨⟨2026, 5, 4⟩, ⟨2026, 5, 4⟩⟩ ∧
     Date.le (⟨2026, 5, 4⟩ : Date) ⟨2026, 5, 4⟩ = true) ∧
    (∀ rr ∈ blackout_ranges_of ⟨2025, 8, 25⟩ ⟨2025, 12, 4⟩
        [("Fall Break", ⟨⟨2025, 10, 11⟩, ⟨2025, 10, 14⟩⟩)]
        [("Labor Day", ⟨⟨2025, 9, 1⟩, ⟨2025, 9, 1⟩⟩)],
      Date.le rr.start rr.stop = true) :=
  ⟨⟨rfl, rfl, rfl,
    C4_range_invariant.1 ⟨⟨2026, 1, 1⟩, ⟨2026, 1, 10⟩⟩ ⟨2026, 1, 5⟩
      ⟨2026, 1, 20⟩ rfl rfl rfl⟩,
   ⟨rfl, C4_range_invariant.2.1 "May 4, 2026" ⟨⟨2026, 5, 4⟩, ⟨2026, 5, 4⟩⟩ rfl
      (by intro mon d1 d2 y h
          rw [show rangeParts (normalizeRangeText "May 4, 2026") = none from rfl] at h
          exact Option.noConfusion h)⟩,
   C4_range_invariant.2.2 ⟨2025, 8, 25⟩ ⟨2025, 12, 4⟩
     [("Fall Break", ⟨⟨2025, 10, 11⟩, ⟨2025, 10, 14⟩⟩)]
     [("Labor Day", ⟨⟨2025, 9, 1⟩, ⟨2025, 9, 1⟩⟩)] rfl (by decide) (by decide)⟩

/-! ### Claim C3: parse_range on the single-month range grammar -/

/-- Claim C3 (corrected), counterexample to the claim as stated: the text
"October 14-11, 2025" matches the single-month range grammar, parse_range
builds the range from the two day numbers in order of appearance, and the
result violates start ≤ end. -/
theorem C3_counterexample :
    rangeParts (normalizeRangeText "October 14-11, 2025") =
      some ("October".data, 14, 11, 2025) ∧
    parse_range "October 14-11, 2025" =
      Except.ok ⟨⟨2025, 10, 14⟩, ⟨2025, 10, 11⟩⟩ ∧
    Date.le ⟨2025, 10, 14⟩ ⟨2025, 10, 11⟩ = false :=
  ⟨rfl, rfl, rfl⟩

/-- Claim C3 (corrected, amended): for text matching the single-month range
grammar (with or without a trailing suffix) whose month name is recognized,
whose day numbers are valid for that month, and whose day pair is ordered,
parse_range returns the range from (month, D1, year) to (month, D2, year):
the two ends share month and year, and start ≤ end. -/
theorem C3_parse_range_single_month (t : String) (mon : List Char)
    (d1 d2 y mm : Nat)
    (hm : rangeParts (normalizeRangeText t) = some (mon, d1, d2, y))
    (hmon : monthIndex mon = some mm) (hy : 1 ≤ y)
    (hd1 : 1 ≤ d1 ∧ d1 ≤ daysInMonth y mm)
    (hd2 : 1 ≤ d2 ∧ d2 ≤ daysInMonth y mm) (hord : d1 ≤ d2) :
    parse_range t = Except.ok ⟨⟨y, mm, d1⟩, ⟨y, mm, d2⟩⟩ ∧
    (⟨y, mm, d1⟩ : Date).month = (⟨y, mm, d2⟩ : Date).month ∧
    (⟨y, mm, d1⟩ : Date).year = (⟨y, mm, d2⟩ : Date).year ∧
    Date.le ⟨y, mm, d1⟩ ⟨y, mm, d2⟩ = true := by
  have h1 : dateutilParseMDY mon d1 y = Except.ok ⟨y, mm, d1⟩ := by
    simp only [dateutilParseMDY, hmon]
    rw [if_pos ⟨hy, hd1.1, hd1.2⟩]
  have h2 : dateutilParseMDY mon d2 y = Except.ok ⟨y, mm, d2⟩ := by
    simp only [dateutilParseMDY, hmon]
    rw [if_pos ⟨hy, hd2.1, hd2.2⟩]
  have hle : Date.le ⟨y, mm, d1⟩ ⟨y, mm, d2⟩ = true := by
    rw [Date.le_iff]
    dsimp only
    omega
  refine ⟨?_, rfl, rfl, hle⟩
  unfold rangeParts at hm
  cases hm1 : matchRange1 (normalizeRangeText t) with
  | some v =>
    simp only [hm1] at hm
    injection hm with hv
    subst hv
    simp only [parse_range, hm1, h1, h2]
  | none =>
    simp only [hm1] at hm
    simp only [parse_range, hm1, hm, h1, h2]

/-- Claim C3: witness, the worked example of the specification:
"October 11-14, 2025" parses to the range 2025-10-11 .. 2025-10-14. -/
theorem C3_witness :
    rangeParts (normalizeRangeText "October 11-14, 2025") =
      some ("October".data, 11, 14, 2025) ∧
    parse_range "October 11-14, 2025" =
      Except.ok ⟨⟨2025, 10, 11⟩, ⟨2025, 10, 14⟩⟩ ∧
    Date.le ⟨2025, 10, 11⟩ ⟨2025, 10, 14⟩ = true :=
  ⟨rfl,
   (C3_parse_range_single_month "October 11-14, 2025" "October".data 11 14
      2025 10 rfl rfl (by decide) (by decide) (by decide) (by decide)).1,
   (C3_parse_range_single_month "October 11-14, 2025" "October".data 11 14
      2025 10 rfl rfl (by decide) (by decide) (by decide) (by decide)).2.2.2⟩

/-! ### Claim C7: the single-date fallback of parse_range -/

/-- Claim C7 (confirmed): when neither single-month range pattern matches
the normalized text but the text parses as a single date d, parse_range
returns the zero-width range from d to d. -/
theorem C7_parse_range_fallback (t : String) (d : Date)
    (h1 : matchRange1 (normalizeRangeText t) = none)
    (h2 : matchRange2 (normalizeRangeText t) = none)
    (h3 : parse_month_day_year ⟨normalizeRangeText t⟩ = Except.ok d) :
    parse_range t = Except.ok ⟨d, d⟩ := by
  simp only [parse_range, h1, h2, h3]

/-- Claim C7: witness at the single date "May 4, 2026". -/
theorem C7_witness :
    matchRange1 (normalizeRangeText "May 4, 2026") = none ∧
    matchRange2 (normalizeRangeText "May 4, 2026") = none ∧
    parse_month_day_year ⟨normalizeRangeText "May 4, 2026"⟩ =
      Except.ok ⟨2026, 5, 4⟩ ∧
    parse_range "May 4, 2026" = Except.ok ⟨⟨2026, 5, 4⟩, ⟨2026, 5, 4⟩⟩ :=
  ⟨rfl, rfl, rfl, C7_parse_range_fallback "May 4, 2026" ⟨2026, 5, 4⟩ rfl rfl rfl⟩

/-! ### Claim C8: missing term heading is a hard failure -/

/-- Claim C8 (confirmed): when no cleaned line of the academic page contains
the "Spring {year}" heading, the spring term-block extraction reports the
section-not-found error rather than returning a block. -/
theorem C8_missing_spring_heading (txt : String) (year : Int)
    (h : ∀ l ∈ cleanLines txt,
      containsSubstr l ("Spring " ++ intStr year) = false) :
    ∃ msg, extract_term_block_text txt year "spring" = Except.error msg := by
  have hfind : (cleanLines txt).findIdx?
      (fun l => containsSubstr l ("Spring " ++ intStr year)) = none := by
    rw [List.findIdx?_eq_none_iff]
    exact h
  simp only [extract_term_block_text]
  rw [if_pos (show lowerStr "spring" = "spring" from rfl)]
  simp only [hfind]
  exact ⟨_, rfl⟩

/-- Claim C8: witness on a page with no Spring 2026 heading. -/
theorem C8_witness :
    (∀ l ∈ cleanLines "Fall 2025\nno spring here",
      containsSubstr l ("Spring " ++ intStr 2026) = false) ∧
    (∃ msg, extract_term_block_text "Fall 2025\nno spring here" 2026 "spring" =
      Except.error msg) :=
  ⟨by decide, C8_missing_spring_heading "Fall 2025\nno spring here" 2026 (by decide)⟩

/-! ### Claim C9: determinism of the core pipeline -/

/-- Claim C9 (confirmed): the assembled term model is a pure function of the
fetched page texts: two runs whose fetchers return identical text for every
URL produce identical term models.  The embedding is pure by construction
(the specification models the external date parser as a deterministic
converter), so no run-varying state can influence the result. -/
theorem C9_determinism (year : Int) (semester : String)
    (f g : String → Except String String) (h : ∀ u, f u = g u) :
    build_term_events year semester f = build_term_events year semester g := by
  have hfg : f = g := funext h
  rw [hfg]

/-- Claim C9: witness with two syntactically distinct but equal fetchers. -/
theorem C9_witness :
    build_term_events 2026 "spring" (fun u => Except.ok ("page " ++ u)) =
      build_term_events 2026 "spring" (fun u => Except.ok ("page " ++ u)) :=
  C9_determinism 2026 "spring" _ _ (fun _ => rfl)

/-! ### Claim C10: semester validation before any fetch -/

/-- Claim C10 (confirmed): for any semester whose lower-cased form is
neither fall nor spring, both the slug derivation and build_term_events
fail with the ValueError message, the latter for every fetcher (so before
any fetch can be consulted); mixed-case Fall and Spring are accepted
because the argument is lower-cased first. -/
theorem C10_semester_validation :
    (∀ (year : Int) (semester : String), lowerStr semester ≠ "fall" →
      lowerStr semester ≠ "spring" →
      academic_year_slug_for_term year semester =
        Except.error "semester must be fall or spring" ∧
      ∀ fetch, build_term_events year semester fetch =
        Except.error "semester must be fall or spring") ∧
    academic_year_slug_for_term 2025 "Fall" = Except.ok "ay2526.php" ∧
    academic_year_slug_for_term 2026 "Spring" = Except.ok "ay2526.php" := by
  refine ⟨?_, rfl, rfl⟩
  intro year semester h1 h2
  have hc : ¬(lowerStr semester = "fall" ∨ lowerStr semester = "spring") := by
    intro hcon
    cases hcon with
    | inl hl => exact h1 hl
    | inr hr => exact h2 hr
  constructor
  · simp only [academic_year_slug_for_term]
    rw [if_neg hc]
  · intro fetch
    simp only [build_term_events]
    rw [if_neg hc]

/-- Claim C10: witness at the rejected semester "summer" and a trivial
fetcher. -/
theorem C10_witness :
    academic_year_slug_for_term 2025 "summer" =
      Except.error "semester must be fall or spring" ∧
    build_term_events 2025 "summer" (fun _ => Except.error "net down") =
      Except.error "semester must be fall or spring" :=
  ⟨(C10_semester_validation.1 2025 "summer" (by decide) (by decide)).1,
   (C10_semester_validation.1 2025 "summer" (by decide) (by decide)).2
     (fun _ => Except.error "net down")⟩

/-! ### Claim C2: the deadline end-date extractor cascade -/

/-- findallGo yields nothing on the empty remainder, for any fuel. -/
theorem findallGo_nil (fuel : Nat) : findallGo fuel [] = [] := by
  cases fuel <;> rfl

/-- A string that fully matches the bare Month D, YYYY pattern is its own
single findall occurrence, so the fuzzy parser converts exactly its
components. -/
theorem parse_mdy_of_full (s : String) (mon : List Char) (d y : Nat)
    (h : matchMDY_full s.data = some (mon, d, y)) :
    parse_month_day_year s = dateutilParseMDY mon d y := by
  unfold matchMDY_full at h
  cases hat : matchMDYat s.data with
  | none => simp only [hat] at h; exact Option.noConfusion h
  | some p =>
    obtain ⟨⟨sub, mon2, d2, y2⟩, rest⟩ := p
    simp only [hat] at h
    cases rest with
    | cons a as => exact Option.noConfusion h
    | nil =>
      injection h with h2
      rw [Prod.mk.injEq] at h2
      obtain ⟨hm, h3⟩ := h2
      rw [Prod.mk.injEq] at h3
      obtain ⟨hd, hy⟩ := h3
      subst hm
      subst hd
      subst hy
      have hfa : findallMDY s.data = [(sub, mon2, d2, y2)] := by
        unfold findallMDY
        cases hrl : s.data with
        | nil =>
          rw [hrl] at hat
          rw [show matchMDYat [] = none from rfl] at hat
          exact Option.noConfusion hat
        | cons c cs =>
          rw [hrl] at hat
          rw [List.length_cons]
          unfold findallGo
          simp only [hat]
          rw [findallGo_nil]
      unfold parse_month_day_year
      simp only [hfa]

/-- Claim C2 (confirmed): the end-date extractor of a captured full-session
line.  After stripping the leading FULL token and separators: (a) a bare
Month D, YYYY line yields exactly that date; (b) otherwise a two-month range
yields the date built from the second month, second day, and the year; (c)
otherwise a single-month range yields the stated month with the second day
and the year; (d) otherwise the last Month D, YYYY occurrence in the
stripped line is parsed; and when no alternative matches the result is the
absence value None, not an exception.  The two round-trip examples of the
specification are included. -/
theorem C2_end_date_extractor :
    extract_end_date_from_full_line
        (some "FULL  -  January 20 - February 2, 2026") =
      Except.ok (some ⟨2026, 2, 2⟩) ∧
    extract_end_date_from_full_line (some "FULL - March 16-29, 2026") =
      Except.ok (some ⟨2026, 3, 29⟩) ∧
    (∀ (l : String) (mon : List Char) (d y mm : Nat),
      matchMDY_full (stripFull l).data = some (mon, d, y) →
      monthIndex mon = some mm → 1 ≤ y → 1 ≤ d → d ≤ daysInMonth y mm →
      extract_end_date_from_full_line (some l) =
        Except.ok (some ⟨y, mm, d⟩)) ∧
    (∀ (l : String) (m1 : List Char) (d1 : Nat) (mon2 : List Char) (d2 y : Nat),
      matchMDY_full (stripFull l).data = none →
      matchTwoMonth (stripFull l).data = some (m1, d1, mon2, d2, y) →
      extract_end_date_from_full_line (some l) =
        (dateutilParseMDY mon2 d2 y).map some) ∧
    (∀ (l : String) (mon : List Char) (d1 d2 y : Nat),
      matchMDY_full (stripFull l).data = none →
      matchTwoMonth (stripFull l).data = none →
      matchRange1 (stripFull l).data = some (mon, d1, d2, y) →
      extract_end_date_from_full_line (some l) =
        (dateutilParseMDY mon d2 y).map some) ∧
    (∀ (l : String) (sub mon : List Char) (d y : Nat),
      matchMDY_full (stripFull l).data = none →
      matchTwoMonth (stripFull l).data = none →
      matchRange1 (stripFull l).data = none →
      (findallMDY (stripFull l).data).getLast? = some (sub, mon, d, y) →
      extract_end_date_from_full_line (some l) =
        (parse_month_day_year ⟨sub⟩).map some) ∧
    (∀ l : String,
      matchMDY_full (stripFull l).data = none →
      matchTwoMonth (stripFull l).data = none →
      matchRange1 (stripFull l).data = none →
      findallMDY (stripFull l).data = [] →
      extract_end_date_from_full_line (some l) = Except.ok none) := by
  refine ⟨rfl, rfl, ?_, ?_, ?_, ?_, ?_⟩
  · intro l mon d y mm hA hmon hy hd1 hd2
    by_cases hl : l = ""
    · subst hl
      rw [show matchMDY_full (stripFull "").data = none from rfl] at hA
      exact Option.noConfusion hA
    · simp only [extract_end_date_from_full_line]
      rw [if_neg hl]
      simp only [hA, Option.isSome_some, if_true]
      rw [parse_mdy_of_full (stripFull l) mon d y hA]
      simp only [dateutilParseMDY, hmon]
      rw [if_pos ⟨hy, hd1, hd2⟩]
      rfl
  · intro l m1 d1 mon2 d2 y hA hB
    by_cases hl : l = ""
    · subst hl
      rw [show matchTwoMonth (stripFull "").data = none from rfl] at hB
      exact Option.noConfusion hB
    · simp only [extract_end_date_from_full_line]
      rw [if_neg hl]
      simp only [hA, Option.isSome_none, Bool.false_eq_true, if_false, hB]
  · intro l mon d1 d2 y hA hB hC
    by_cases hl : l = ""
    · subst hl
      rw [show matchRange1 (stripFull "").data = none from rfl] at hC
      exact Option.noConfusion hC
    · simp only [extract_end_date_from_full_line]
      rw [if_neg hl]
      simp only [hA, Option.isSome_none, Bool.false_eq_true, if_false, hB, hC]
  · intro l sub mon d y hA hB hC hD
    by_cases hl : l = ""
    · subst hl
      rw [show (findallMDY (stripFull "").data).getLast? = none from rfl] at hD
      exact Option.noConfusion hD
    · simp only [extract_end_date_from_full_line]
      rw [if_neg hl]
      simp only [hA, Option.isSome_none, Bool.false_eq_true, if_false, hB, hC, hD]
  · intro l hA hB hC hD
    by_cases hl : l = ""
    · subst hl
      rfl
    · simp only [extract_end_date_from_full_line]
      rw [if_neg hl]
      simp only [hA, Option.isSome_none, Bool.false_eq_true, if_false, hB, hC,
        hD, List.getLast?_nil]

/-- Claim C2: witness applications of the cascade: a bare date through case
(a), and a no-match line through the final None case. -/
theorem C2_witness :
    extract_end_date_from_full_line (some "FULL - August 25, 2025") =
      Except.ok (some ⟨2025, 8, 25⟩) ∧
    extract_end_date_from_full_line (some "FULL - TBA") = Except.ok none :=
  ⟨C2_end_date_extractor.2.2.1 "FULL - August 25, 2025" "August".data 25 2025
     8 rfl rfl (by decide) (by decide) (by decide),
   C2_end_date_extractor.2.2.2.2.2.2 "FULL - TBA" rfl rfl rfl rfl⟩

/-! ### Claim C5: the deadline scanner captures -/

/-- Keep an already-captured line, otherwise take the declarative find. -/
def orCap (o x : Option String) : Option String :=
  match o with
  | some v => some v
  | none => x

/-- One step of the declarative capture when the head line satisfies the
capture predicate. -/
theorem annotate_cons (st : DLSection) (l : String) (ls : List String) :
    annotate st (l :: ls) = (l, st) :: annotate (stepSection st l) ls := rfl

theorem fff_cons_pos (st : DLSection) (l : String) (ls : List String)
    (tgt : DLSection)
    (hp : (!isToggle l && startsFullToken l && decide (st = tgt)) = true) :
    firstFullFrom st (l :: ls) tgt = some l := by
  unfold firstFullFrom
  rw [annotate_cons, List.find?_cons]
  dsimp only
  rw [hp]
  rfl

/-- One step of the declarative capture when the head line fails the capture
predicate. -/
theorem fff_cons_neg (st : DLSection) (l : String) (ls : List String)
    (tgt : DLSection)
    (hp : (!isToggle l && startsFullToken l && decide (st = tgt)) = false) :
    firstFullFrom st (l :: ls) tgt =
      firstFullFrom (stepSection st l) ls tgt := by
  unfold firstFullFrom
  rw [annotate_cons, List.find?_cons]
  dsimp only
  rw [hp]

/-- The scanning loop agrees with the declarative first-capture view of the
specification's state machine, from any state and any already-captured
lines. -/
theorem scanLoop_spec (ls : List String) :
    ∀ (st : DLSection) (d w : Option String),
    scanLoop ls (decide (st = DLSection.inDrop))
        (decide (st = DLSection.inWithdraw)) d w =
      (orCap d (firstFullFrom st ls DLSection.inDrop),
       orCap w (firstFullFrom st ls DLSection.inWithdraw)) := by
  induction ls with
  | nil =>
    intro st d w
    cases d <;> cases w <;> rfl
  | cons l ls ih =>
    intro st d w
    simp only [scanLoop]
    by_cases h1 : containsCI l "Drop Period" = true
    · rw [if_pos h1]
      have ht : isToggle l = true := by simp [isToggle, h1]
      have hstep : stepSection st l = DLSection.inDrop := by
        simp [stepSection, h1]
      refine (ih DLSection.inDrop d w).trans ?_
      rw [fff_cons_neg st l ls DLSection.inDrop (by simp [ht]),
        fff_cons_neg st l ls DLSection.inWithdraw (by simp [ht]), hstep]
    · rw [if_neg h1]
      by_cases h2 : containsCI l "Withdrawal Period" = true
      · rw [if_pos h2]
        have ht : isToggle l = true := by simp [isToggle, h2]
        have hstep : stepSection st l = DLSection.inWithdraw := by
          simp [stepSection, h1, h2]
        refine (ih DLSection.inWithdraw d w).trans ?_
        rw [fff_cons_neg st l ls DLSection.inDrop (by simp [ht]),
          fff_cons_neg st l ls DLSection.inWithdraw (by simp [ht]), hstep]
      · rw [if_neg h2]
        have ht : isToggle l = false := by simp [isToggle, h1, h2]
        have hstep : stepSection st l = st := by simp [stepSection, h1, h2]
        by_cases h3 :
            (decide (st = DLSection.inDrop) && d.isNone && startsFullToken l) = true
        · rw [if_pos h3]
          simp only [Bool.and_eq_true, decide_eq_true_eq] at h3
          obtain ⟨⟨hst, hdn⟩, hsf⟩ := h3
          cases d with
          | some x => simp at hdn
          | none =>
            subst hst
            refine (ih DLSection.inDrop (some l) w).trans ?_
            rw [fff_cons_pos DLSection.inDrop l ls DLSection.inDrop
                (by simp [ht, hsf]),
              fff_cons_neg DLSection.inDrop l ls DLSection.inWithdraw
                (by simp [ht]), hstep]
            rfl
        · rw [if_neg h3]
          by_cases h4 :
              (decide (st = DLSection.inWithdraw) && w.isNone && startsFullToken l) = true
          · rw [if_pos h4]
            simp only [Bool.and_eq_true, decide_eq_true_eq] at h4
            obtain ⟨⟨hst, hwn⟩, hsf⟩ := h4
            cases w with
            | some x => simp at hwn
            | none =>
              subst hst
              refine (ih DLSection.inWithdraw d (some l)).trans ?_
              rw [fff_cons_pos DLSection.inWithdraw l ls DLSection.inWithdraw
                  (by simp [ht, hsf]),
                fff_cons_neg DLSection.inWithdraw l ls DLSection.inDrop
                  (by simp [ht]), hstep]
              rfl
          · rw [if_neg h4]
            by_cases h5 : (pyTruthyS d && pyTruthyS w) = true
            · rw [if_pos h5]
              simp only [Bool.and_eq_true] at h5
              obtain ⟨hd5, hw5⟩ := h5
              cases d with
              | none => simp [pyTruthyS] at hd5
              | some x =>
                cases w with
                | none => simp [pyTruthyS] at hw5
                | some z => rfl
            · rw [if_neg h5]
              refine (ih st d w).trans ?_
              have hDside : orCap d (firstFullFrom st ls DLSection.inDrop) =
                  orCap d (firstFullFrom st (l :: ls) DLSection.inDrop) := by
                cases d with
                | some x => rfl
                | none =>
                  have hpredD : (!isToggle l && startsFullToken l &&
                      decide (st = DLSection.inDrop)) = false := by
                    rw [ht]
                    by_cases hsf : startsFullToken l = true
                    · by_cases hst : decide (st = DLSection.inDrop) = true
                      · exfalso
                        apply h3
                        rw [hst, hsf]
                        rfl
                      · rw [Bool.not_eq_true] at hst
                        simp [hsf, hst]
                    · rw [Bool.not_eq_true] at hsf
                      simp [hsf]
                  rw [fff_cons_neg st l ls DLSection.inDrop hpredD, hstep]
              have hWside : orCap w (firstFullFrom st ls DLSection.inWithdraw) =
                  orCap w (firstFullFrom st (l :: ls) DLSection.inWithdraw) := by
                cases w with
                | some x => rfl
                | none =>
                  have hpredW : (!isToggle l && startsFullToken l &&
                      decide (st = DLSection.inWithdraw)) = false := by
                    rw [ht]
                    by_cases hsf : startsFullToken l = true
                    · by_cases hst : decide (st = DLSection.inWithdraw) = true
                      · exfalso
                        apply h4
                        rw [hst, hsf]
                        rfl
                      · rw [Bool.not_eq_true] at hst
                        simp [hsf, hst]
                    · rw [Bool.not_eq_true] at hsf
                      simp [hsf]
                  rw [fff_cons_neg st l ls DLSection.inWithdraw hpredW, hstep]
              rw [hDside, hWside]

/-- Claim C5 (confirmed): the scanner captures exactly the declarative first
FULL line per section: at most one line per section, namely the first
non-toggle line beginning with the FULL token while that section is
current; consequently every captured line starts with FULL (so cohort rows
such as 1ST, 2ND, WIN are never captured), is not a section header, and a
FULL line before any section header (state Neither) is never captured. -/
theorem C5_full_session_capture (txt : String) :
    captured_full_lines txt =
      (firstFullCapture (ddLines txt) DLSection.inDrop,
       firstFullCapture (ddLines txt) DLSection.inWithdraw) ∧
    (∀ l, (captured_full_lines txt).1 = some l →
      startsFullToken l = true ∧ isToggle l = false) ∧
    (∀ l, (captured_full_lines txt).2 = some l →
      startsFullToken l = true ∧ isToggle l = false) := by
  have hmain : captured_full_lines txt =
      (firstFullCapture (ddLines txt) DLSection.inDrop,
       firstFullCapture (ddLines txt) DLSection.inWithdraw) :=
    scanLoop_spec (ddLines txt) DLSection.neither none none
  refine ⟨hmain, ?_, ?_⟩
  · intro l hl
    rw [hmain] at hl
    have hl2 : firstFullCapture (ddLines txt) DLSection.inDrop = some l := hl
    unfold firstFullCapture firstFullFrom at hl2
    rw [Option.map_eq_some'] at hl2
    obtain ⟨p, hfind, hp1⟩ := hl2
    have hpred := List.find?_some hfind
    simp only [Bool.and_eq_true, Bool.not_eq_true'] at hpred
    subst hp1
    exact ⟨hpred.1.2, hpred.1.1⟩
  · intro l hl
    rw [hmain] at hl
    have hl2 : firstFullCapture (ddLines txt) DLSection.inWithdraw = some l := hl
    unfold firstFullCapture firstFullFrom at hl2
    rw [Option.map_eq_some'] at hl2
    obtain ⟨p, hfind, hp1⟩ := hl2
    have hpred := List.find?_some hfind
    simp only [Bool.and_eq_true, Bool.not_eq_true'] at hpred
    subst hp1
    exact ⟨hpred.1.2, hpred.1.1⟩

/-- Claim C5: witness on a small deadlines page: the 1ST cohort row is
skipped, the first FULL row of each section is captured, and the captured
lines start with the FULL token. -/
theorem C5_witness :
    captured_full_lines
        "Drop Period\n1ST - January 5, 2026\nFULL - January 20 - February 2, 2026\nFULL - other\nWithdrawal Period\nWIN - x\nFULL - March 16-29, 2026" =
      (some "FULL - January 20 - February 2, 2026",
       some "FULL - March 16-29, 2026") ∧
    startsFullToken "FULL - January 20 - February 2, 2026" = true :=
  ⟨(C5_full_session_capture _).1.trans (by rfl),
   ((C5_full_session_capture
       "Drop Period\n1ST - January 5, 2026\nFULL - January 20 - February 2, 2026\nFULL - other\nWithdrawal Period\nWIN - x\nFULL - March 16-29, 2026").2.1
     "FULL - January 20 - February 2, 2026" (by rfl)).1⟩

/-! ### Claims C1 and C6: the instructional week segmenter -/

/-- The loop agrees with the specification view: its events are the
consecutive numbering of the nonempty per-Monday collections, and a Monday
with an empty collection contributes nothing and consumes no number. -/
theorem weekLoop_eq_numberWeeks (F L : Int) (bl : List (Int × Int)) :
    ∀ (ms : List Int) (n : Nat),
    weekLoop F L bl ms n =
      numberWeeks n ((ms.map (collectDays F L bl)).filter
        (fun l => !l.isEmpty)) := by
  intro ms
  induction ms with
  | nil => intro n; rfl
  | cons m ms ih =>
    intro n
    simp only [weekLoop, List.map_cons, List.filter_cons]
    cases h : (collectDays F L bl m).isEmpty with
    | true => simp [h, ih n]
    | false => simp [h, ih (n + 1), numberWeeks]

/-- The i-th emitted event of the numbering starting at n carries the title
of week n + i. -/
theorem numberWeeks_title :
    ∀ (ls : List (List Int)) (n i : Nat) (hi : i < (numberWeeks n ls).length),
    ∃ s, ((numberWeeks n ls).get ⟨i, hi⟩).1 = weekTitle (n + i) s := by
  intro ls
  induction ls with
  | nil => intro n i hi; exact absurd hi (by simp [numberWeeks])
  | cons l ls ih =>
    intro n i hi
    cases i with
    | zero => exact ⟨decide (l.length < 5), by simp [numberWeeks]⟩
    | succ i =>
      obtain ⟨s, hs⟩ := ih (n + 1) i (by
        simpa [numberWeeks, Nat.succ_lt_succ_iff] using hi)
      refine ⟨s, ?_⟩
      have hg : ((numberWeeks n (l :: ls)).get ⟨i + 1, hi⟩) =
          (numberWeeks (n + 1) ls).get ⟨i, by
            simpa [numberWeeks, Nat.succ_lt_succ_iff] using hi⟩ := by
        simp [numberWeeks]
      rw [hg, hs]
      congr 1
      omega

/-- Every collected day of the week of Monday m lies in the clamped Mon-Fri
window: between m and m + 4 and inside the term bounds. -/
theorem mem_collectDays_bounds (F L : Int) (bl : List (Int × Int)) (m d : Int)
    (hd : d ∈ collectDays F L bl m) :
    m ≤ d ∧ d ≤ m + 4 ∧ F ≤ d ∧ d ≤ L := by
  unfold collectDays daterange_inclusive at hd
  rw [List.mem_filter] at hd
  obtain ⟨hd1, _⟩ := hd
  rw [List.mem_map] at hd1
  obtain ⟨i, hi, rfl⟩ := hd1
  rw [List.mem_range] at hi
  have h1 : m ≤ max m F := le_max_left _ _
  have h2 : F ≤ max m F := le_max_right _ _
  have h3 : min (m + 4) L ≤ m + 4 := min_le_left _ _
  have h4 : min (m + 4) L ≤ L := min_le_right _ _
  omega

/-- The Mondays visited by the loop are 7 days apart, in order. -/
theorem mondays_pairwise (F L : Int) :
    List.Pairwise (fun a b => a + 7 ≤ b) (mondays F L) := by
  unfold mondays
  exact List.Pairwise.map _ (fun a b hab => by omega)
    (List.pairwise_lt_range _)

/-- The emitted week collections are chronologically separated: every day
of an earlier week precedes every day of a later week. -/
theorem weekSpecLists_pairwise (F L : Int) (bl : List (Int × Int)) :
    List.Pairwise chainRel (weekSpecLists F L bl) := by
  unfold weekSpecLists
  refine List.Pairwise.sublist (List.filter_sublist _) ?_
  refine List.Pairwise.map _ ?_ (mondays_pairwise F L)
  intro a b hab x hx y hy
  have hxa := mem_collectDays_bounds F L bl a x hx
  have hyb := mem_collectDays_bounds F L bl b y hy
  omega

/-- Inversion of membership in the numbered weeks: every event arises from
one of the collections, with its head and last day and its length flag. -/
theorem numberWeeks_mem :
    ∀ (ls : List (List Int)) (n : Nat) (e : String × Int × Int),
    e ∈ numberWeeks n ls →
    ∃ l k, l ∈ ls ∧
      e = (weekTitle k (decide (l.length < 5)), l.headD 0, l.getLastD 0) := by
  intro ls
  induction ls with
  | nil => intro n e he; exact absurd he (by simp [numberWeeks])
  | cons l ls ih =>
    intro n e he
    rw [numberWeeks, List.mem_cons] at he
    cases he with
    | inl h => exact ⟨l, n, List.mem_cons_self _ _, h⟩
    | inr h =>
      obtain ⟨l2, k, hl2, he2⟩ := ih (n + 1) e h
      exact ⟨l2, k, List.mem_cons_of_mem _ hl2, he2⟩

/-- The default head of a nonempty list is a member. -/
theorem headD_mem {l : List Int} (h : l ≠ []) : l.headD 0 ∈ l := by
  cases l with
  | nil => exact absurd rfl h
  | cons a t => exact List.mem_cons_self _ _

/-- The default last element of a nonempty list is a member. -/
theorem getLastD_mem : ∀ (l : List Int) (d : Int), l ≠ [] → l.getLastD d ∈ l := by
  intro l
  induction l with
  | nil => intro d h; exact absurd rfl h
  | cons a t ih =>
    intro d h
    rw [List.getLastD_cons]
    cases ht : t with
    | nil => simp
    | cons b t2 =>
      rw [← ht]
      exact List.mem_cons_of_mem _ (ih a (by rw [ht]; exact List.cons_ne_nil _ _))

/-- Chronologically separated nonempty collections yield events whose spans
do not overlap: each event ends before the next begins. -/
theorem numberWeeks_pairwise :
    ∀ (ls : List (List Int)), (∀ l ∈ ls, l ≠ []) →
    List.Pairwise chainRel ls → ∀ n,
    List.Pairwise (fun e1 e2 : String × Int × Int => e1.2.2 < e2.2.1)
      (numberWeeks n ls) := by
  intro ls
  induction ls with
  | nil => intro _ _ n; exact List.Pairwise.nil
  | cons l ls ih =>
    intro hne hp n
    rw [List.pairwise_cons] at hp
    rw [numberWeeks, List.pairwise_cons]
    constructor
    · intro e he
      obtain ⟨l2, k, hl2, he2⟩ := numberWeeks_mem ls (n + 1) e he
      subst he2
      dsimp only
      have hlm : l.getLastD 0 ∈ l :=
        getLastD_mem l 0 (hne l (List.mem_cons_self _ _))
      have hhm : l2.headD 0 ∈ l2 :=
        headD_mem (hne l2 (List.mem_cons_of_mem _ hl2))
      exact hp.1 l2 hl2 (l.getLastD 0) hlm (l2.headD 0) hhm
    · exact ih (fun x hx => hne x (List.mem_cons_of_mem _ hx)) hp.2 (n + 1)

/-- Claim C1 (confirmed): for a term with firstDay ≤ lastDay, the emitted
week events are exactly the consecutive numbering (starting at 1) of the
nonempty per-Monday instructional-day collections, so a Monday-anchored
week whose clamped Mon-Fri window has no instructional weekday emits
nothing and does not advance the counter; the i-th emitted event is
labelled Week i+1 (optionally short), giving labels 1..n with no gaps and
no duplicates; and the events are in chronological order, each ending
before the next begins. -/
theorem C1_instructional_weeks (F L : Int) (bl : List (Int × Int))
    (_hFL : F ≤ L) :
    instructional_week_events F L bl = numberWeeks 1 (weekSpecLists F L bl) ∧
    (∀ (i : Nat) (hi : i < (instructional_week_events F L bl).length),
      ∃ s, ((instructional_week_events F L bl).get ⟨i, hi⟩).1 =
        weekTitle (i + 1) s) ∧
    List.Pairwise (fun e1 e2 : String × Int × Int => e1.2.2 < e2.2.1)
      (instructional_week_events F L bl) := by
  have h1 : instructional_week_events F L bl =
      numberWeeks 1 (weekSpecLists F L bl) :=
    weekLoop_eq_numberWeeks F L bl (mondays F L) 1
  refine ⟨h1, ?_, ?_⟩
  · have h2 : ∀ (xs : List (String × Int × Int)),
        xs = numberWeeks 1 (weekSpecLists F L bl) →
        ∀ (i : Nat) (hi : i < xs.length),
        ∃ s, (xs.get ⟨i, hi⟩).1 = weekTitle (i + 1) s := by
      intro xs hxs
      subst hxs
      intro i hi
      obtain ⟨s, hs⟩ := numberWeeks_title _ 1 i hi
      rw [Nat.add_comm 1 i] at hs
      exact ⟨s, hs⟩
    exact h2 _ h1
  · rw [h1]
    refine numberWeeks_pairwise (weekSpecLists F L bl) ?_
      (weekSpecLists_pairwise F L bl) 1
    intro l hl
    rw [weekSpecLists, List.mem_filter] at hl
    have h2 := hl.2
    rw [Bool.not_eq_true'] at h2
    intro hnil
    rw [hnil] at h2
    simp at h2

/-- Claim C1: witness for a two-week term starting on a Monday (ordinal 1)
and ending the following Thursday (ordinal 11), with no blackouts. -/
theorem C1_witness :
    (1 : Int) ≤ 11 ∧
    (instructional_week_events 1 11 [] = numberWeeks 1 (weekSpecLists 1 11 []) ∧
     (∀ (i : Nat) (hi : i < (instructional_week_events 1 11 []).length),
       ∃ s, ((instructional_week_events 1 11 []).get ⟨i, hi⟩).1 =
         weekTitle (i + 1) s) ∧
     List.Pairwise (fun e1 e2 : String × Int × Int => e1.2.2 < e2.2.1)
       (instructional_week_events 1 11 [])) :=
  ⟨by decide, C1_instructional_weeks 1 11 [] (by decide)⟩

/-- Digit characters produced by the decimal digit table are digits. -/
theorem digitChar_isDigit (m : Nat) (h : m < 10) :
    (Nat.digitChar m).isDigit = true := by
  interval_cases m <;> decide

/-- All characters accumulated by the decimal rendering loop are digits. -/
theorem toDigitsCore_digits :
    ∀ (fuel n : Nat) (acc : List Char),
    (∀ c ∈ acc, c.isDigit = true) →
    ∀ c ∈ Nat.toDigitsCore 10 fuel n acc, c.isDigit = true := by
  intro fuel
  induction fuel with
  | zero =>
    intro n acc hacc c hc
    exact hacc c hc
  | succ f ih =>
    intro n acc hacc c hc
    unfold Nat.toDigitsCore at hc
    by_cases hn : n / 10 = 0
    · rw [if_pos hn] at hc
      rcases List.mem_cons.mp hc with h1 | h2
      · rw [h1]
        exact digitChar_isDigit (n % 10) (Nat.mod_lt _ (by decide))
      · exact hacc c h2
    · rw [if_neg hn] at hc
      refine ih (n / 10) (Nat.digitChar (n % 10) :: acc) ?_ c hc
      intro c2 hc2
      rcases List.mem_cons.mp hc2 with h1 | h2
      · rw [h1]
        exact digitChar_isDigit (n % 10) (Nat.mod_lt _ (by decide))
      · exact hacc c2 h2

/-- Every character of the decimal rendering of a natural number is a
digit. -/
theorem repr_digits (n : Nat) : ∀ c ∈ (Nat.repr n).data, c.isDigit = true := by
  intro c hc
  have hd : (Nat.repr n).data = Nat.toDigitsCore 10 (n + 1) n [] := rfl
  rw [hd] at hc
  exact toDigitsCore_digits (n + 1) n [] (by intro c2 hc2; cases hc2) c hc

/-- A week title ends in the short marker exactly when the short flag is
set: the marker is appended for a short week, and a plain title cannot end
in it because its last characters are digits. -/
theorem weekTitle_suffix (n : Nat) (s : Bool) :
    (" (short)".data <:+ (weekTitle n s).data) ↔ s = true := by
  cases s with
  | true =>
    constructor
    · intro _
      rfl
    · intro _
      show " (short)".data <:+ ("Week " ++ Nat.repr n ++ " (short)").data
      rw [String.data_append]
      exact List.suffix_append _ _
  | false =>
    refine iff_of_false ?_ (by simp)
    intro h
    have hmem : '(' ∈ " (short)".data := by decide
    have hmem2 : '(' ∈ (weekTitle n false).data := h.subset hmem
    have hdata : (weekTitle n false).data =
        "Week ".data ++ (Nat.repr n).data := by
      show (("Week " ++ Nat.repr n) ++ "").data = _
      rw [String.data_append, String.data_append,
        show ("" : String).data = [] from rfl, List.append_nil]
    rw [hdata] at hmem2
    rcases List.mem_append.mp hmem2 with h1 | h2
    · exact absurd h1 (by decide)
    · have := repr_digits n '(' h2
      simp at this

/-- Claim C6 (confirmed): every emitted week event comes from one of the
visited Mondays with a nonempty collection of instructional days: its start
and end are the first and last collected day of that week's clamped Mon-Fri
window, and its label ends in the short marker exactly when fewer than 5
instructional days were collected. -/
theorem C6_week_event_shape (F L : Int) (bl : List (Int × Int))
    (e : String × Int × Int) (he : e ∈ instructional_week_events F L bl) :
    ∃ m, m ∈ mondays F L ∧ collectDays F L bl m ≠ [] ∧
      e.2.1 = (collectDays F L bl m).headD 0 ∧
      e.2.2 = (collectDays F L bl m).getLastD 0 ∧
      (" (short)".data <:+ e.1.data ↔ (collectDays F L bl m).length < 5) := by
  rw [show instructional_week_events F L bl =
      numberWeeks 1 (weekSpecLists F L bl) from
    weekLoop_eq_numberWeeks F L bl (mondays F L) 1] at he
  obtain ⟨l, k, hl, he2⟩ := numberWeeks_mem (weekSpecLists F L bl) 1 e he
  rw [weekSpecLists, List.mem_filter] at hl
  obtain ⟨hl1, hl2⟩ := hl
  rw [List.mem_map] at hl1
  obtain ⟨m, hm, hml⟩ := hl1
  subst hml
  refine ⟨m, hm, ?_, ?_, ?_, ?_⟩
  · rw [Bool.not_eq_true'] at hl2
    intro hnil
    rw [hnil] at hl2
    simp at hl2
  · rw [he2]
  · rw [he2]
  · rw [he2]
    dsimp only
    rw [weekTitle_suffix]
    simp

/-- Claim C6: witness: in the two-week term of ordinals 1..11 with no
blackouts, the second emitted event is the clipped week labelled short,
spanning the Monday (8) through the Thursday (11) of its week. -/
theorem C6_witness :
    (("Week 2 (short)", (8 : Int), (11 : Int)) ∈
      instructional_week_events 1 11 []) ∧
    (∃ m, m ∈ mondays 1 11 ∧ collectDays 1 11 [] m ≠ [] ∧
      (("Week 2 (short)", (8 : Int), (11 : Int)) : String × Int × Int).2.1 =
        (collectDays 1 11 [] m).headD 0 ∧
      (("Week 2 (short)", (8 : Int), (11 : Int)) : String × Int × Int).2.2 =
        (collectDays 1 11 [] m).getLastD 0 ∧
      (" (short)".data <:+
          (("Week 2 (short)", (8 : Int), (11 : Int)) : String × Int × Int).1.data ↔
        (collectDays 1 11 [] m).length < 5)) :=
  ⟨by decide,
   C6_week_event_shape 1 11 [] ("Week 2 (short)", 8, 11) (by decide)⟩
